import Mathlib

/-!
Verification development for the `distributed-file-orchestration-and-synchronization`
repository (a Python TCP file-transfer server/client pair).

The development shallowly embeds the wire protocol and the server's session
handling into Lean:

* bytes and Unicode codepoints are `Nat`;
* the JSON encoding used by `send_message` (`json.dumps(message).encode()`,
  which with the default `ensure_ascii=True` emits pure ASCII) and the JSON
  decoding used by `receive_message` (`json.loads`) are modelled by `dumps`
  and `loads` over the restricted value grammar the protocol uses
  (objects whose values are strings, integers, or arrays of strings);
* a TCP byte stream, as observed through repeated `socket.recv` calls, is
  modelled as a list of fragments: each `recv n` call returns at most `n`
  bytes from the front fragment, and an exhausted stream models the peer
  having closed the connection;
* the per-session server logic (`FileTransferServer.handle_client`,
  `authenticate_client`, `send_file` and the command dispatch chain) is
  translated branch by branch, with the filesystem under the session's user
  directory modelled as an association list from filename to contents.

All recursion is structural (on lists or on an explicit `Nat` fuel that the
top-level wrappers instantiate with a provably sufficient bound), so every
definition evaluates by kernel reduction on concrete inputs.
-/

/-- A Python string, as a list of Unicode codepoints. -/
abbrev Str := List Nat

/-- Codepoints of a Lean string literal, used to write protocol constants. -/
def strLit (s : String) : Str := s.toList.map Char.toNat

/-- A codepoint is a valid Unicode scalar value: below 0x110000 and not a
surrogate.  Python `str` objects built from real text satisfy this, and it is
exactly the condition under which `json.dumps`/`json.loads` round-trip a
character. -/
def ValidCp (c : Nat) : Prop := c < 1114112 ∧ (c < 55296 ∨ 57344 ≤ c)

instance (c : Nat) : Decidable (ValidCp c) := by unfold ValidCp; infer_instance

/-- Values that may appear in a protocol message: strings, integers, and
arrays of strings (the `files` list). -/
inductive JValue where
  | jstr (s : Str)
  | jint (n : Int)
  | jarr (a : List Str)
deriving DecidableEq

/-- A protocol message: a Python dict with string keys, in insertion order. -/
abbrev JMessage := List (Str × JValue)

/-! ## The encoder: `json.dumps(message).encode()` with `ensure_ascii=True` -/

/-- Lowercase hex digit, as emitted by `json.dumps` in `\uXXXX` escapes. -/
def hexDigit (d : Nat) : Nat := if d < 10 then 48 + d else 87 + d

/-- Four lowercase hex digits of `n < 0x10000`, most significant first. -/
def hex4 (n : Nat) : List Nat :=
  [hexDigit (n / 4096 % 16), hexDigit (n / 256 % 16), hexDigit (n / 16 % 16), hexDigit (n % 16)]

/-- ASCII encoding of one string character, following CPython's
`py_encode_basestring_ascii`: quote and backslash get two-character escapes,
the common control characters get their short escapes, other controls and all
non-ASCII codepoints get `\uXXXX` (a surrogate pair for astral codepoints),
and printable ASCII is emitted raw. -/
def escapeChar (c : Nat) : List Nat :=
  if c = 34 then [92, 34]
  else if c = 92 then [92, 92]
  else if c = 8 then [92, 98]
  else if c = 9 then [92, 116]
  else if c = 10 then [92, 110]
  else if c = 12 then [92, 102]
  else if c = 13 then [92, 114]
  else if c < 32 then 92 :: 117 :: hex4 c
  else if c < 127 then [c]
  else if c < 65536 then 92 :: 117 :: hex4 c
  else (92 :: 117 :: hex4 (55296 + (c - 65536) / 1024)) ++ (92 :: 117 :: hex4 (56320 + (c - 65536) % 1024))

/-- JSON string literal for `s`: quote, escaped characters, quote. -/
def encStr (s : Str) : List Nat := 34 :: (s.map escapeChar).flatten ++ [34]

/-- Fuelled decimal digit emitter; `fuel ≥ n` makes it total over the
recursion `n ↦ n / 10`. -/
def natDigitsAux : Nat → Nat → List Nat
  | 0, n => [48 + n % 10]
  | fuel + 1, n => if n < 10 then [48 + n] else natDigitsAux fuel (n / 10) ++ [48 + n % 10]

/-- ASCII decimal digits of `n`, most significant first, no leading zeros. -/
def natDigits (n : Nat) : List Nat := natDigitsAux n n

/-- ASCII rendering of a Python int, as `json.dumps` (i.e. `str(i)`) emits it. -/
def encInt (i : Int) : List Nat :=
  if i < 0 then 45 :: natDigits i.natAbs else natDigits i.toNat

/-- JSON array of strings with `json.dumps`'s default `", "` separator. -/
def encArr (a : List Str) : List Nat :=
  match a with
  | [] => [91, 93]
  | x :: xs => 91 :: (encStr x ++ (xs.map (fun s => 44 :: 32 :: encStr s)).flatten ++ [93])

/-- Encoding of one message value. -/
def encValue : JValue → List Nat
  | .jstr s => encStr s
  | .jint n => encInt n
  | .jarr a => encArr a

/-- Encoding of one `"key": value` object item (`": "` separator). -/
def encItem (kv : Str × JValue) : List Nat := encStr kv.1 ++ 58 :: 32 :: encValue kv.2

/-- The payload bytes of `json.dumps(message).encode()`: an object literal
with `", "` between items.  With `ensure_ascii` the output is pure ASCII, so
bytes and codepoints coincide. -/
def dumps (m : JMessage) : List Nat :=
  match m with
  | [] => [123, 125]
  | x :: xs => 123 :: (encItem x ++ (xs.map (fun kv => 44 :: 32 :: encItem kv)).flatten ++ [125])

/-! ## The decoder: `json.loads` on the protocol grammar -/

/-- Drop JSON whitespace (space, tab, newline, carriage return), as
`json.loads` does between tokens. -/
def skipWs (l : List Nat) : List Nat :=
  l.dropWhile (fun c => c = 32 || c = 9 || c = 10 || c = 13)

/-- Value of one hex digit character (both cases accepted, as in Python). -/
def parseHexDigit (c : Nat) : Option Nat :=
  if 48 ≤ c ∧ c ≤ 57 then some (c - 48)
  else if 97 ≤ c ∧ c ≤ 102 then some (c - 87)
  else if 65 ≤ c ∧ c ≤ 70 then some (c - 55)
  else none

/-- Read four hex digits into a value below 0x10000. -/
def parseHex4 : List Nat → Option (Nat × List Nat)
  | a :: b :: c :: d :: rest =>
    match parseHexDigit a, parseHexDigit b, parseHexDigit c, parseHexDigit d with
    | some x, some y, some z, some w => some (x * 4096 + y * 256 + z * 16 + w, rest)
    | _, _, _, _ => none
  | _ => none

/-- Decode one escape sequence (the input starts after the backslash),
following CPython's `py_scanstring`: the short escapes, `\uXXXX`, and
recombination of a high/low surrogate escape pair into one astral codepoint;
a high surrogate not followed by a low-surrogate escape is kept as-is. -/
def parseEsc (l : List Nat) : Option (Nat × List Nat) :=
  match l with
  | [] => none
  | e :: r =>
    if e = 34 then some (34, r)
    else if e = 92 then some (92, r)
    else if e = 47 then some (47, r)
    else if e = 98 then some (8, r)
    else if e = 116 then some (9, r)
    else if e = 110 then some (10, r)
    else if e = 102 then some (12, r)
    else if e = 114 then some (13, r)
    else if e = 117 then
      match parseHex4 r with
      | none => none
      | some (u1, r2) =>
        if 55296 ≤ u1 ∧ u1 ≤ 56319 then
          if r2.head? = some 92 ∧ (r2.drop 1).head? = some 117 then
            match parseHex4 (r2.drop 2) with
            | some (u2, r4) =>
              if 56320 ≤ u2 ∧ u2 ≤ 57343 then
                some (65536 + (u1 - 55296) * 1024 + (u2 - 56320), r4)
              else some (u1, r2)
            | none => some (u1, r2)
          else some (u1, r2)
        else some (u1, r2)
    else none

/-- Fuelled body of the string scanner (the opening quote has already been
consumed); one unit of fuel per produced character, so any fuel above the
input length is enough.  Raw control characters are rejected, as in
`json.loads`'s default strict mode. -/
def parseStrAux : Nat → List Nat → Option (Str × List Nat)
  | 0, _ => none
  | _ + 1, [] => none
  | fuel + 1, c :: r =>
    if c = 34 then some ([], r)
    else if c = 92 then
      match parseEsc r with
      | some (u, r2) => (parseStrAux fuel r2).map (fun p => (u :: p.1, p.2))
      | none => none
    else if c < 32 then none
    else (parseStrAux fuel r).map (fun p => (c :: p.1, p.2))

/-- Scan a string literal given the input after its opening quote. -/
def parseStrBody (l : List Nat) : Option (Str × List Nat) :=
  parseStrAux (l.length + 1) l

/-- ASCII decimal digit test. -/
def isDigitByte (c : Nat) : Bool := 48 ≤ c && c ≤ 57

/-- Numeric value of a big-endian list of ASCII digits. -/
def digitsVal (ds : List Nat) : Nat := ds.foldl (fun a c => a * 10 + (c - 48)) 0

/-- Read an unsigned JSON integer: a nonempty digit run with no redundant
leading zero (Python's `NUMBER_RE` matches `0` or `[1-9][0-9]*`). -/
def parseNatTok (l : List Nat) : Option (Nat × List Nat) :=
  let ds := l.takeWhile isDigitByte
  if ds = [] then none
  else if ds.head? = some 48 ∧ ds.length ≠ 1 then none
  else some (digitsVal ds, l.dropWhile isDigitByte)

/-- Read a JSON integer with an optional leading minus sign. -/
def parseIntTok (l : List Nat) : Option (Int × List Nat) :=
  if l.head? = some 45 then (parseNatTok (l.drop 1)).map (fun p => (-(p.1 : Int), p.2))
  else (parseNatTok l).map (fun p => ((p.1 : Int), p.2))

/-- Fuelled parser for the items of a string array, after the opening `[`
and any leading whitespace; one unit of fuel per element. -/
def parseArrAux : Nat → List Nat → Option (List Str × List Nat)
  | 0, _ => none
  | fuel + 1, l =>
    if l.head? = some 34 then
      match parseStrBody (l.drop 1) with
      | none => none
      | some (s, r2) =>
        if (skipWs r2).head? = some 44 then
          (parseArrAux fuel (skipWs ((skipWs r2).drop 1))).map (fun p => (s :: p.1, p.2))
        else if (skipWs r2).head? = some 93 then some ([s], (skipWs r2).drop 1)
        else none
    else none

/-- Parse a JSON array of strings given the input after its opening `[`. -/
def parseArr (l : List Nat) : Option (List Str × List Nat) :=
  if (skipWs l).head? = some 93 then some ([], (skipWs l).drop 1)
  else parseArrAux ((skipWs l).length + 1) (skipWs l)

/-- Parse one protocol value: a string, an array of strings, or an integer. -/
def parseValue (l : List Nat) : Option (JValue × List Nat) :=
  if l.head? = some 34 then (parseStrBody (l.drop 1)).map (fun p => (JValue.jstr p.1, p.2))
  else if l.head? = some 91 then (parseArr (l.drop 1)).map (fun p => (JValue.jarr p.1, p.2))
  else (parseIntTok l).map (fun p => (JValue.jint p.1, p.2))

/-- Fuelled parser for the items of an object, positioned at the first
character of a key string; one unit of fuel per item. -/
def parseItemsAux : Nat → List Nat → Option (List (Str × JValue) × List Nat)
  | 0, _ => none
  | fuel + 1, l =>
    if l.head? = some 34 then
      match parseStrBody (l.drop 1) with
      | none => none
      | some (k, r2) =>
        if (skipWs r2).head? = some 58 then
          match parseValue (skipWs ((skipWs r2).drop 1)) with
          | none => none
          | some (v, r4) =>
            if (skipWs r4).head? = some 44 then
              (parseItemsAux fuel (skipWs ((skipWs r4).drop 1))).map (fun p => ((k, v) :: p.1, p.2))
            else if (skipWs r4).head? = some 125 then some ([(k, v)], (skipWs r4).drop 1)
            else none
        else none
    else none

/-- Python dict insertion: an existing key keeps its position and gets the
new value; a new key is appended. -/
def dictInsert : JMessage → Str → JValue → JMessage
  | [], k, v => [(k, v)]
  | (k', v') :: rest, k, v =>
    if k' = k then (k', v) :: rest else (k', v') :: dictInsert rest k v

/-- Build a Python dict from parsed key/value pairs (later duplicates win,
keeping the first occurrence's position), as `dict(pairs)` does. -/
def dictOf (l : List (Str × JValue)) : JMessage :=
  l.foldl (fun m kv => dictInsert m kv.1 kv.2) []

/-- Parse a JSON object into a dict. -/
def parseObj (l : List Nat) : Option (JMessage × List Nat) :=
  if (skipWs l).head? = some 123 then
    if (skipWs ((skipWs l).drop 1)).head? = some 125 then
      some ([], (skipWs ((skipWs l).drop 1)).drop 1)
    else
      (parseItemsAux ((skipWs ((skipWs l).drop 1)).length + 1) (skipWs ((skipWs l).drop 1))).map
        (fun p => (dictOf p.1, p.2))
  else none

/-- The model of `json.loads(payload.decode())` on the protocol grammar:
parse one object and require that only whitespace follows (`json.loads`
raises `Extra data` otherwise).  `none` models a raised
`json.JSONDecodeError`.  The payloads the system itself produces are pure
ASCII, so the byte/codepoint conflation is exact on them. -/
def loads (l : List Nat) : Option JMessage :=
  match parseObj l with
  | some (m, rest) => if skipWs rest = [] then some m else none
  | none => none

/-! ## Framing and the stream model

A TCP byte stream, as seen through `socket.recv`, is a list of fragments:
one call to `recv n` returns at most `n` bytes from the front fragment, and
an empty list models a closed connection (`recv` returning `b''`).  A
universally quantified fragment list captures every way the transport may
split the sender's bytes across reads. -/

/-- A received byte stream: the fragments successive `recv` calls will see. -/
abbrev Wire := List (List Nat)

/-- Total number of bytes left in a stream. -/
def totalLen (s : Wire) : Nat := (s.map List.length).sum

/-- One `socket.recv n` call: at most `n` bytes from the front fragment, the
unread tail of an oversized fragment staying in front; an empty stream means
the peer has closed and `recv` returns no bytes. -/
def recv (n : Nat) : Wire → List Nat × Wire
  | [] => ([], [])
  | f :: rest => if f.length ≤ n then (f, rest) else (f.take n, f.drop n :: rest)

/-- The 4-byte big-endian length prefix `struct.pack('!I', n)`. -/
def pack4 (n : Nat) : List Nat :=
  [n / 16777216 % 256, n / 65536 % 256, n / 256 % 256, n % 256]

/-- Big-endian decoding of a 4-byte prefix, `struct.unpack('!I', l)[0]`. -/
def unpack4 (l : List Nat) : Nat :=
  match l with
  | [a, b, c, d] => a * 16777216 + b * 65536 + c * 256 + d
  | _ => 0

/-- The bytes `send_message` writes for message `m`: length prefix plus the
encoded payload, as one logical `sendall`. -/
def frameBytes (m : JMessage) : List Nat := pack4 (dumps m).length ++ dumps m

/-- Fuelled body of `receive_message`'s payload loop: accumulate
`recv(min(4096, need - len(acc)))` chunks until `need` bytes are collected;
an empty chunk (peer closed mid-payload) yields `none`, the code's
`return None`.  One unit of fuel per loop iteration; each iteration adds at
least one byte, so `need + 1` fuel is always enough. -/
def recvAllAux (need : Nat) : Nat → List Nat → Wire → Option (List Nat) × Wire
  | 0, _, s => (none, s)
  | fuel + 1, acc, s =>
    if acc.length < need then
      match recv (min 4096 (need - acc.length)) s with
      | ([], s2) => (none, s2)
      | (c, s2) => recvAllAux need fuel (acc ++ c) s2
    else (some acc, s)

/-- The payload loop of `FileTransferServer.receive_message`. -/
def recvAll (need : Nat) (s : Wire) : Option (List Nat) × Wire :=
  recvAllAux need (need + 1) [] s

/-- `FileTransferServer.receive_message`: one `recv(4)` call for the length
prefix (`None` if the peer closed, and a caught `struct.error`, also `None`,
if fewer than four bytes arrived in that single read), then the accumulating
payload loop, then `json.loads`; a decode failure is caught and yields the
same `None`. -/
def receive_message (s : Wire) : Option JMessage × Wire :=
  match recv 4 s with
  | ([], s1) => (none, s1)
  | (ld, s1) =>
    if ld.length < 4 then (none, s1)
    else
      match recvAllAux (unpack4 ld) (unpack4 ld + 1) [] s1 with
      | (none, s2) => (none, s2)
      | (some payload, s2) => (loads payload, s2)

/-! ## The server session model (`FileTransferServer.handle_client`) -/

/-- Python `dict.get`: the value at a key, `None` if absent. -/
def jGet (m : JMessage) (k : Str) : Option JValue :=
  (m.find? (fun kv => kv.1 = k)).map (fun kv => kv.2)

/-- Python truthiness of a message value (`if not x` / `and x` tests):
empty strings, zero, and empty lists are falsy. -/
def jTruthy : JValue → Bool
  | .jstr s => !s.isEmpty
  | .jint n => n != 0
  | .jarr a => !a.isEmpty

/-- Python `int(x)` on a decoded JSON value: an int is returned as is, a
string of optional surrounding whitespace, an optional sign and at least one
digit is parsed, anything else (including a list) raises, modelled as
`none`. -/
def pyInt : JValue → Option Int
  | .jint n => some n
  | .jarr _ => none
  | .jstr s =>
    let t := (((s.dropWhile (fun c => c = 32 || c = 9)).reverse.dropWhile
      (fun c => c = 32 || c = 9)).reverse)
    match t with
    | 45 :: ds => if ds ≠ [] ∧ ds.all isDigitByte then some (-(digitsVal ds : Int)) else none
    | 43 :: ds => if ds ≠ [] ∧ ds.all isDigitByte then some ((digitsVal ds : Int)) else none
    | ds => if ds ≠ [] ∧ ds.all isDigitByte then some ((digitsVal ds : Int)) else none

/-- The session's user directory: an association list from filename to file
contents (regular files only, which is all `handle_client` creates). -/
abbrev FS := List (Str × List Nat)

/-- File existence / contents, `file_path.exists()` plus `open(..., 'rb')`. -/
def fsLookup (fs : FS) (n : Str) : Option (List Nat) :=
  (fs.find? (fun f => f.1 = n)).map (fun f => f.2)

/-- Effect of `open(file_path, 'wb')` plus writing `c`: an existing file is
replaced (truncate-then-write), a new one is created. -/
def fsWrite : FS → Str → List Nat → FS
  | [], n, c => [(n, c)]
  | (n', c') :: rest, n, c =>
    if n' = n then (n', c) :: rest else (n', c') :: fsWrite rest n c

/-- Effect of `file_path.unlink()`. -/
def fsDelete (fs : FS) (n : Str) : FS := fs.filter (fun f => !(f.1 = n : Bool))

/-- The filenames `user_dir.iterdir()` enumerates. -/
def fsNames (fs : FS) : List Str := fs.map (fun f => f.1)

/-- Everything the server writes to the socket: framed messages
(`send_message`) and raw unframed chunks (`sendall` inside `send_file`). -/
inductive Out where
  | frame (m : JMessage)
  | raw (b : List Nat)
deriving DecidableEq

/-- Response `{'status': 'success', 'files': files}` of the `list` branch. -/
def listResp (names : List Str) : JMessage :=
  [(strLit "status", .jstr (strLit "success")), (strLit "files", .jarr names)]

/-- Response sent after the upload loop finishes, truncated or not. -/
def uploadOkResp : JMessage :=
  [(strLit "status", .jstr (strLit "success")),
   (strLit "message", .jstr (strLit "File uploaded successfully"))]

/-- Response `{'status': 'success', 'size': file_size}` opening a download. -/
def dlOkResp (n : Nat) : JMessage :=
  [(strLit "status", .jstr (strLit "success")), (strLit "size", .jint n)]

/-- Response `{'status': 'error', 'message': 'File not found'}`. -/
def notFoundResp : JMessage :=
  [(strLit "status", .jstr (strLit "error")),
   (strLit "message", .jstr (strLit "File not found"))]

/-- Response of the `view` branch carrying the decoded preview. -/
def viewOkResp (p : Str) : JMessage :=
  [(strLit "status", .jstr (strLit "success")), (strLit "preview", .jstr p)]

/-- Response of a successful `delete`. -/
def deleteOkResp : JMessage :=
  [(strLit "status", .jstr (strLit "success")),
   (strLit "message", .jstr (strLit "File deleted successfully"))]

/-- Response `{'status': 'error', 'message': str(e)}` sent by the
dispatcher's exception handler; the exception text is abstracted as the
empty string, since no claim depends on it. -/
def excResp : JMessage :=
  [(strLit "status", .jstr (strLit "error")), (strLit "message", .jstr [])]

/-- Fuelled body of the upload receive loop: accumulate
`recv(min(4096, file_size - received))` chunks `while received < file_size`;
an empty chunk makes the loop `break`, keeping the partial data (no error is
recorded).  One unit of fuel per iteration. -/
def recvUpToAux (need : Nat) : Nat → List Nat → Wire → List Nat × Wire
  | 0, acc, s => (acc, s)
  | fuel + 1, acc, s =>
    if acc.length < need then
      match recv (min 4096 (need - acc.length)) s with
      | ([], s2) => (acc, s2)
      | (c, s2) => recvUpToAux need fuel (acc ++ c) s2
    else (acc, s)

/-- The raw-byte receive loop of the `upload` branch.  The loop guard
`received < file_size` is false from the start when `file_size ≤ 0`, which
`Int.toNat` captures. -/
def recvUpTo (size : Int) (s : Wire) : List Nat × Wire :=
  recvUpToAux size.toNat (size.toNat + 1) [] s

/-- Fuelled 4096-byte chunking of `send_file`'s read loop. -/
def chunksAux : Nat → List Nat → List (List Nat)
  | 0, _ => []
  | fuel + 1, c => if c.isEmpty then [] else c.take 4096 :: chunksAux fuel (c.drop 4096)

/-- The raw chunks `send_file` writes for a file's contents: successive
`f.read(4096)` results until the whole file is sent. -/
def chunks (c : List Nat) : List (List Nat) := chunksAux (c.length + 1) c

/-- Fuelled body of UTF-8 decoding with `errors='ignore'`; one unit of fuel
per consumed lead byte, so any fuel above the input length is enough. -/
def utf8IgnoreAux : Nat → List Nat → List Nat
  | 0, _ => []
  | _ + 1, [] => []
  | fuel + 1, b :: rest =>
    if b < 128 then b :: utf8IgnoreAux fuel rest
    else if 194 ≤ b ∧ b ≤ 223 then
      match rest with
      | [] => []
      | c :: rest2 =>
        if 128 ≤ c ∧ c ≤ 191 then ((b - 192) * 64 + (c - 128)) :: utf8IgnoreAux fuel rest2
        else utf8IgnoreAux fuel rest
    else if 224 ≤ b ∧ b ≤ 239 then
      match rest with
      | [] => []
      | c :: rest2 =>
        if (if b = 224 then 160 ≤ c ∧ c ≤ 191
            else if b = 237 then 128 ≤ c ∧ c ≤ 159
            else 128 ≤ c ∧ c ≤ 191) then
          match rest2 with
          | [] => []
          | d :: rest3 =>
            if 128 ≤ d ∧ d ≤ 191 then
              ((b - 224) * 4096 + (c - 128) * 64 + (d - 128)) :: utf8IgnoreAux fuel rest3
            else utf8IgnoreAux fuel rest2
        else utf8IgnoreAux fuel rest
    else if 240 ≤ b ∧ b ≤ 244 then
      match rest with
      | [] => []
      | c :: rest2 =>
        if (if b = 240 then 144 ≤ c ∧ c ≤ 191
            else if b = 244 then 128 ≤ c ∧ c ≤ 143
            else 128 ≤ c ∧ c ≤ 191) then
          match rest2 with
          | [] => []
          | d :: rest3 =>
            if 128 ≤ d ∧ d ≤ 191 then
              match rest3 with
              | [] => []
              | e :: rest4 =>
                if 128 ≤ e ∧ e ≤ 191 then
                  ((b - 240) * 262144 + (c - 128) * 4096 + (d - 128) * 64 + (e - 128)) :: utf8IgnoreAux fuel rest4
                else utf8IgnoreAux fuel rest3
            else utf8IgnoreAux fuel rest2
        else utf8IgnoreAux fuel rest
    else utf8IgnoreAux fuel rest

/-- UTF-8 decoding with `errors='ignore'` (the `view` branch's
`preview.decode(errors='ignore')`): well-formed sequences become their
codepoint, bytes that cannot start or continue a valid sequence are dropped,
following CPython's maximal-subpart skipping.  Total by construction, as the
`ignore` handler never raises. -/
def utf8DecodeIgnore (l : List Nat) : List Nat := utf8IgnoreAux (l.length + 1) l

/-- Result of one dispatch step: the socket writes it performed, the user
directory afterwards, and the unread remainder of the incoming stream. -/
structure StepResult where
  outs : List Out
  fs : FS
  s : Wire
deriving DecidableEq

/-- One iteration body of the `while self.running` loop of `handle_client`,
after a command message has been received: the `if/elif` dispatch chain,
with the surrounding `except Exception` turning a raised error into a framed
`status: error` response.  Note the chain has no `else`: a command matching
no branch (unknown `command`, or a known one with a falsy `filename`)
produces no response at all. -/
def dispatch (fs : FS) (m : JMessage) (s : Wire) : StepResult :=
  let cmd := jGet m (strLit "command")
  let fv := (jGet m (strLit "filename")).getD (.jstr [])
  if cmd = some (.jstr (strLit "list")) then
    ⟨[.frame (listResp (fsNames fs))], fs, s⟩
  else if cmd = some (.jstr (strLit "upload")) ∧ jTruthy fv then
    match pyInt ((jGet m (strLit "size")).getD (.jint 0)) with
    | none => ⟨[.frame excResp], fs, s⟩
    | some size =>
      match fv with
      | .jstr name =>
        let pr := recvUpTo size s
        ⟨[.frame uploadOkResp], fsWrite fs name pr.1, pr.2⟩
      | _ => ⟨[.frame excResp], fs, s⟩
  else if cmd = some (.jstr (strLit "download")) ∧ jTruthy fv then
    match fv with
    | .jstr name =>
      match fsLookup fs name with
      | some content =>
        ⟨.frame (dlOkResp content.length) :: (chunks content).map .raw, fs, s⟩
      | none => ⟨[.frame notFoundResp], fs, s⟩
    | _ => ⟨[.frame excResp], fs, s⟩
  else if cmd = some (.jstr (strLit "view")) ∧ jTruthy fv then
    match fv with
    | .jstr name =>
      match fsLookup fs name with
      | some content => ⟨[.frame (viewOkResp (utf8DecodeIgnore (content.take 1024)))], fs, s⟩
      | none => ⟨[.frame notFoundResp], fs, s⟩
    | _ => ⟨[.frame excResp], fs, s⟩
  else if cmd = some (.jstr (strLit "delete")) ∧ jTruthy fv then
    match fv with
    | .jstr name =>
      match fsLookup fs name with
      | some _ => ⟨[.frame deleteOkResp], fsDelete fs name, s⟩
      | none => ⟨[.frame notFoundResp], fs, s⟩
    | _ => ⟨[.frame excResp], fs, s⟩
  else ⟨[], fs, s⟩

/-- The guard of some branch of the dispatch chain holds; its negation is
exactly the silent fall-through. -/
def matchesSomeBranch (m : JMessage) : Prop :=
  jGet m (strLit "command") = some (.jstr (strLit "list")) ∨
  ((jGet m (strLit "command")) = some (.jstr (strLit "upload")) ∨
   (jGet m (strLit "command")) = some (.jstr (strLit "download")) ∨
   (jGet m (strLit "command")) = some (.jstr (strLit "view")) ∨
   (jGet m (strLit "command")) = some (.jstr (strLit "delete"))) ∧
  jTruthy ((jGet m (strLit "filename")).getD (.jstr []))

instance (m : JMessage) : Decidable (matchesSomeBranch m) := by
  unfold matchesSomeBranch; infer_instance

/-- The `while self.running` command loop (with the flag never flipped by a
concurrent shutdown, i.e. the sequential behaviour): receive one framed
message, stop on `None`, otherwise dispatch and continue.  One unit of fuel
per iteration; each served message consumes at least four stream bytes, so
`handle_client` passes fuel exceeding the stream size. -/
def commandLoop : Nat → FS → Wire → List Out × FS
  | 0, fs, _ => ([], fs)
  | fuel + 1, fs, s =>
    match receive_message s with
    | (none, _) => ([], fs)
    | (some m, s1) =>
      let st := dispatch fs m s1
      let rec2 := commandLoop fuel st.fs st.s
      (st.outs ++ rec2.1, rec2.2)

/-- The credential table loaded from `id_passwd.txt`. -/
abbrev Creds := List (Str × Str)

/-- Value of `username in credentials and credentials[username]`. -/
def credLookup (creds : Creds) (u : Str) : Option Str :=
  (creds.find? (fun c => c.1 = u)).map (fun c => c.2)

/-- Response `{'status': 'success'}` of a passed authentication. -/
def authOkResp : JMessage := [(strLit "status", .jstr (strLit "success"))]

/-- Response `{'status': 'failed'}` of a rejected authentication. -/
def authFailResp : JMessage := [(strLit "status", .jstr (strLit "failed"))]

/-- The credential check of `authenticate_client`: the `username` field is a
string present in the table and the `password` field equals the stored
password (a missing or non-string field never matches). -/
def authUser (creds : Creds) (m : JMessage) : Option Str :=
  match jGet m (strLit "username") with
  | some (.jstr u) =>
    match credLookup creds u with
    | some p => if jGet m (strLit "password") = some (.jstr p) then some u else none
    | _ => none
  | _ => none

/-- `FileTransferServer.authenticate_client`: receive exactly one framed
message; `if not auth_data` (a `None` from `receive_message`, or a falsy
empty dict) returns `None` with no response; otherwise a matching user gets
`{'status': 'success'}` and the username back, anyone else
`{'status': 'failed'}` and `None`. -/
def authenticate_client (creds : Creds) (s : Wire) : Option Str × List Out × Wire :=
  match receive_message s with
  | (none, s1) => (none, [], s1)
  | (some m, s1) =>
    if m = [] then (none, [], s1)
    else
      match authUser creds m with
      | some u => (some u, [.frame authOkResp], s1)
      | none => (none, [.frame authFailResp], s1)

/-- Observable outcome of one session: every socket write in order, whether
the socket was added to / removed from `self.clients`, whether the command
loop was entered, the final user directory, and that the socket was closed
(which `handle_client` always does, either directly after a failed
authentication or in its `finally` block). -/
structure SessionResult where
  outs : List Out
  registered : Bool
  deregistered : Bool
  enteredLoop : Bool
  fs : FS
  closed : Bool
deriving DecidableEq

/-- `FileTransferServer.handle_client` for one connection: authenticate
(`if not username` covers both a `None` and an empty username), then
`self.clients.add`, then the command loop, then the `finally` block's
`self.clients.remove` and `close`.  The `fs` argument is the session user's
directory (`storage_root/username`, created empty on first access). -/
def handle_client (creds : Creds) (fs : FS) (s : Wire) : SessionResult :=
  match authenticate_client creds s with
  | (some u, aouts, s1) =>
    if u = [] then ⟨aouts, false, false, false, fs, true⟩
    else
      let lp := commandLoop (totalLen s1 + 1) fs s1
      ⟨aouts ++ lp.1, true, true, true, lp.2, true⟩
  | (none, aouts, _) => ⟨aouts, false, false, false, fs, true⟩

/-! ## Validity of message values -/

/-- Every codepoint of the string is a Unicode scalar value. -/
def ValidStr (s : Str) : Prop := ∀ c ∈ s, ValidCp c

/-- A message value whose strings are valid. -/
def ValidVal : JValue → Prop
  | .jstr s => ValidStr s
  | .jint _ => True
  | .jarr a => ∀ x ∈ a, ValidStr x

/-- A valid message: a dict (distinct keys) of valid keys and values. -/
def ValidMsg (m : JMessage) : Prop :=
  (∀ kv ∈ m, ValidStr kv.1 ∧ ValidVal kv.2) ∧ (m.map Prod.fst).Nodup

instance (s : Str) : Decidable (ValidStr s) := by unfold ValidStr; infer_instance

instance (v : JValue) : Decidable (ValidVal v) := by
  cases v <;> simp [ValidVal] <;> infer_instance

instance (m : JMessage) : Decidable (ValidMsg m) := by unfold ValidMsg; infer_instance

/-! ## Round-trip of the textual encoding -/

theorem parseHexDigit_hexDigit {d : Nat} (h : d < 16) : parseHexDigit (hexDigit d) = some d := by
  interval_cases d <;> rfl

theorem parseHex4_hex4 {n : Nat} (h : n < 65536) (rest : List Nat) :
    parseHex4 (hex4 n ++ rest) = some (n, rest) := by
  simp only [hex4, List.cons_append, List.nil_append, parseHex4,
    parseHexDigit_hexDigit (Nat.mod_lt _ (by norm_num))]
  have : n / 4096 % 16 * 4096 + n / 256 % 16 * 256 + n / 16 % 16 * 16 + n % 16 = n := by omega
  simp [this]

theorem digitsVal_append (l : List Nat) (d : Nat) :
    digitsVal (l ++ [d]) = digitsVal l * 10 + (d - 48) := by
  simp [digitsVal, List.foldl_append]

theorem natDigitsAux_spec : ∀ fuel n, n ≤ fuel →
    digitsVal (natDigitsAux fuel n) = n ∧
    (∀ c ∈ natDigitsAux fuel n, 48 ≤ c ∧ c ≤ 57) ∧
    natDigitsAux fuel n ≠ [] ∧
    (0 < n → (natDigitsAux fuel n).head? ≠ some 48) := by
  intro fuel
  induction fuel with
  | zero =>
    intro n hn
    interval_cases n
    simp [natDigitsAux, digitsVal]
  | succ fuel ih =>
    intro n hn
    by_cases h10 : n < 10
    · refine ⟨?_, ?_, ?_, ?_⟩ <;> simp [natDigitsAux, h10, digitsVal] <;> omega
    · have hd : n / 10 ≤ fuel := by omega
      obtain ⟨ihv, ihd, ihne, ihh⟩ := ih (n / 10) hd
      refine ⟨?_, ?_, ?_, ?_⟩
      · simp only [natDigitsAux, if_neg h10, digitsVal_append, ihv]
        omega
      · simp only [natDigitsAux, if_neg h10]
        intro c hc
        rcases List.mem_append.1 hc with h | h
        · exact ihd c h
        · simp at h; omega
      · simp [natDigitsAux, if_neg h10]
      · intro _
        simp only [natDigitsAux, if_neg h10]
        obtain ⟨c, cs, hcons⟩ := List.exists_cons_of_ne_nil ihne
        rw [hcons]
        simp only [List.cons_append, List.head?_cons]
        have := ihh (by omega)
        rw [hcons] at this
        simpa using this

/-- The next character of `l`, if any, is not a decimal digit. -/
def NonDigitStart (l : List Nat) : Prop :=
  ∀ d, l.head? = some d → isDigitByte d = false

theorem takeWhile_append_all {p : Nat → Bool} : ∀ (l r : List Nat),
    (∀ c ∈ l, p c = true) → (∀ d, r.head? = some d → p d = false) →
    (l ++ r).takeWhile p = l ∧ (l ++ r).dropWhile p = r := by
  intro l
  induction l with
  | nil =>
    intro r _ hr
    cases r with
    | nil => simp
    | cons d r' => simp [List.takeWhile_cons, List.dropWhile_cons, hr d rfl]
  | cons c l' ih =>
    intro r hl hr
    have hc : p c = true := hl c (by simp)
    obtain ⟨h1, h2⟩ := ih r (fun x hx => hl x (by simp [hx])) hr
    simp [List.takeWhile_cons, List.dropWhile_cons, hc, h1, h2]

theorem parseNatTok_natDigits {n : Nat} (rest : List Nat) (hrest : NonDigitStart rest) :
    parseNatTok (natDigits n ++ rest) = some (n, rest) := by
  show parseNatTok (natDigitsAux n n ++ rest) = some (n, rest)
  obtain ⟨hv, hd, hne, hh⟩ := natDigitsAux_spec n n le_rfl
  have hall : ∀ c ∈ natDigitsAux n n, isDigitByte c = true := by
    intro c hc
    have := hd c hc
    simp [isDigitByte]; omega
  obtain ⟨ht, hdrop⟩ := takeWhile_append_all (natDigitsAux n n) rest hall hrest
  simp only [parseNatTok, ht, hdrop]
  rw [if_neg hne, if_neg, hv]
  rintro ⟨h48, hlen⟩
  rcases Nat.eq_zero_or_pos n with h0 | h0
  · subst h0
    have hz : natDigitsAux 0 0 = [48] := rfl
    rw [hz] at hlen
    simp at hlen
  · exact hh h0 h48

theorem parseIntTok_encInt (i : Int) (rest : List Nat) (hrest : NonDigitStart rest) :
    parseIntTok (encInt i ++ rest) = some (i, rest) := by
  by_cases hneg : i < 0
  · simp only [encInt, if_pos hneg, List.cons_append, parseIntTok, List.head?_cons,
      Option.some.injEq, if_pos rfl, List.drop_one, List.tail_cons]
    rw [parseNatTok_natDigits rest hrest]
    simp only [Option.map, if_true, Option.some.injEq, Prod.mk.injEq]
    exact ⟨by omega, trivial⟩
  · have hhd : (natDigits i.toNat ++ rest).head? ≠ some 45 := by
      obtain ⟨hv, hd, hne, hh⟩ := natDigitsAux_spec i.toNat i.toNat le_rfl
      obtain ⟨c, cs, hcons⟩ := List.exists_cons_of_ne_nil hne
      rw [show natDigits i.toNat = c :: cs from hcons]
      have := hd c (by rw [show natDigitsAux i.toNat i.toNat = c :: cs from hcons]; simp)
      simp only [List.cons_append, List.head?_cons, ne_eq, Option.some.injEq]
      omega
    simp only [encInt, if_neg hneg, parseIntTok, if_neg hhd]
    rw [parseNatTok_natDigits rest hrest]
    simp only [Option.map, Option.some.injEq, Prod.mk.injEq]
    exact ⟨by omega, trivial⟩



theorem parseEsc_u117 (r : List Nat) : parseEsc (117 :: r) =
    (match parseHex4 r with
     | none => none
     | some (u1, r2) =>
       if 55296 ≤ u1 ∧ u1 ≤ 56319 then
         if r2.head? = some 92 ∧ (r2.drop 1).head? = some 117 then
           match parseHex4 (r2.drop 2) with
           | some (u2, r4) =>
             if 56320 ≤ u2 ∧ u2 ≤ 57343 then
               some (65536 + (u1 - 55296) * 1024 + (u2 - 56320), r4)
             else some (u1, r2)
           | none => some (u1, r2)
         else some (u1, r2)
       else some (u1, r2)) := rfl



theorem parseEsc_u {c : Nat} (hc : c < 65536) (hns : ¬(55296 ≤ c ∧ c ≤ 56319))
    (rest : List Nat) : parseEsc (117 :: (hex4 c ++ rest)) = some (c, rest) := by
  have h4 : parseHex4 (hex4 c ++ rest) = some (c, rest) := parseHex4_hex4 hc rest
  simp only [parseEsc, h4]
  norm_num [hns]

theorem parseEsc_pair {c : Nat} (hc1 : 65536 ≤ c) (hc2 : c < 1114112) (rest : List Nat) :
    parseEsc (117 :: (hex4 (55296 + (c - 65536) / 1024) ++
      (92 :: 117 :: (hex4 (56320 + (c - 65536) % 1024) ++ rest)))) = some (c, rest) := by
  rw [parseEsc_u117, parseHex4_hex4 (by omega : 55296 + (c - 65536) / 1024 < 65536)]
  dsimp only
  rw [if_pos (by omega : (55296:Nat) ≤ 55296 + (c - 65536) / 1024 ∧ 55296 + (c - 65536) / 1024 ≤ 56319)]
  rw [if_pos (⟨rfl, rfl⟩ :
    ((92 :: 117 :: (hex4 (56320 + (c - 65536) % 1024) ++ rest)).head? = some 92 ∧
     ((92 :: 117 :: (hex4 (56320 + (c - 65536) % 1024) ++ rest)).drop 1).head? = some 117))]
  rw [show List.drop 2 (92 :: 117 :: (hex4 (56320 + (c - 65536) % 1024) ++ rest)) =
    hex4 (56320 + (c - 65536) % 1024) ++ rest from rfl]
  rw [parseHex4_hex4 (by omega : 56320 + (c - 65536) % 1024 < 65536)]
  dsimp only
  rw [if_pos (by omega : (56320:Nat) ≤ 56320 + (c - 65536) % 1024 ∧ 56320 + (c - 65536) % 1024 ≤ 57343)]
  exact congrArg (fun n => some (n, rest)) (by omega)



theorem parseStrAux_92 (fuel : Nat) (r : List Nat) : parseStrAux (fuel + 1) (92 :: r) =
    (match parseEsc r with
     | some (u, r2) => (parseStrAux fuel r2).map (fun p => (u :: p.1, p.2))
     | none => none) := rfl

set_option maxHeartbeats 1000000 in
theorem parseStrAux_escapeChar {c : Nat} (hc : ValidCp c) (fuel : Nat) (rest : List Nat) :
    parseStrAux (fuel + 1) (escapeChar c ++ rest) =
      (parseStrAux fuel rest).map (fun p => (c :: p.1, p.2)) := by
  obtain ⟨hlt, hsur⟩ := hc
  simp only [escapeChar]
  split_ifs with h1 h2 h3 h4 h5 h6 h7 h8 h9 h10
  · subst h1
    simp only [List.cons_append, List.nil_append, parseStrAux]
    norm_num [parseEsc]
  · subst h2
    simp only [List.cons_append, List.nil_append, parseStrAux]
    norm_num [parseEsc]
  · subst h3
    simp only [List.cons_append, List.nil_append, parseStrAux]
    norm_num [parseEsc]
  · subst h4
    simp only [List.cons_append, List.nil_append, parseStrAux]
    norm_num [parseEsc]
  · subst h5
    simp only [List.cons_append, List.nil_append, parseStrAux]
    norm_num [parseEsc]
  · subst h6
    simp only [List.cons_append, List.nil_append, parseStrAux]
    norm_num [parseEsc]
  · subst h7
    simp only [List.cons_append, List.nil_append, parseStrAux]
    norm_num [parseEsc]
  · rw [show (92 :: 117 :: hex4 c) ++ rest = 92 :: (117 :: (hex4 c ++ rest)) from by simp]
    rw [parseStrAux_92, parseEsc_u (by omega) (by omega)]
  · have h34 : ¬(c = 34) := h1
    have h92 : ¬(c = 92) := h2
    simp only [List.cons_append, List.nil_append, parseStrAux]
    rw [if_neg h34, if_neg h92, if_neg (by omega)]
    try rfl
  · rw [show (92 :: 117 :: hex4 c) ++ rest = 92 :: (117 :: (hex4 c ++ rest)) from by simp]
    rw [parseStrAux_92, parseEsc_u (by omega) (by omega)]
  · rw [show ((92 :: 117 :: hex4 (55296 + (c - 65536) / 1024)) ++
        (92 :: 117 :: hex4 (56320 + (c - 65536) % 1024))) ++ rest =
        92 :: (117 :: (hex4 (55296 + (c - 65536) / 1024) ++
          (92 :: 117 :: (hex4 (56320 + (c - 65536) % 1024) ++ rest)))) from by simp]
    rw [parseStrAux_92, parseEsc_pair (by omega) (by omega)]


theorem hex4_length (n : Nat) : (hex4 n).length = 4 := rfl

set_option maxHeartbeats 1000000 in
theorem escapeChar_length_pos (c : Nat) : 1 ≤ (escapeChar c).length := by
  unfold escapeChar
  split_ifs <;>
    simp only [List.length_cons, List.length_append, List.length_nil, hex4_length] <;> omega

theorem encBody_length (s : Str) : s.length ≤ ((s.map escapeChar).flatten).length := by
  induction s with
  | nil => simp
  | cons c s ih =>
    simp only [List.map_cons, List.flatten_cons, List.length_append, List.length_cons]
    have := escapeChar_length_pos c
    omega

theorem parseStrAux_encBody {s : Str} (h : ValidStr s) : ∀ fuel, s.length + 1 ≤ fuel →
    ∀ rest, parseStrAux fuel ((s.map escapeChar).flatten ++ (34 :: rest)) = some (s, rest) := by
  induction s with
  | nil =>
    intro fuel hf rest
    obtain ⟨f, rfl⟩ : ∃ f, fuel = f + 1 := ⟨fuel - 1, by omega⟩
    simp [parseStrAux]
  | cons c s ih =>
    intro fuel hf rest
    obtain ⟨f, rfl⟩ : ∃ f, fuel = f + 1 := ⟨fuel - 1, by omega⟩
    have hc : ValidCp c := h c (by simp)
    simp only [List.map_cons, List.flatten_cons, List.append_assoc]
    rw [parseStrAux_escapeChar hc]
    rw [ih (fun x hx => h x (by simp [hx])) f (by simp at hf; omega) rest]
    rfl

theorem parseStrBody_enc {s : Str} (h : ValidStr s) (rest : List Nat) :
    parseStrBody ((s.map escapeChar).flatten ++ (34 :: rest)) = some (s, rest) := by
  apply parseStrAux_encBody h
  have := encBody_length s
  simp only [List.length_append, List.length_cons]
  omega

theorem skipWs_cons {c : Nat} (h1 : c ≠ 32) (h2 : c ≠ 9) (h3 : c ≠ 10) (h4 : c ≠ 13)
    (l : List Nat) : skipWs (c :: l) = c :: l := by
  simp [skipWs, List.dropWhile_cons, h1, h2, h3, h4]

theorem skipWs_32 (l : List Nat) : skipWs (32 :: l) = skipWs l := by
  simp [skipWs, List.dropWhile_cons]

theorem encInt_head (i : Int) : ∃ c cs, encInt i = c :: cs ∧ 45 ≤ c ∧ c ≤ 57 := by
  by_cases hneg : i < 0
  · exact ⟨45, natDigits i.natAbs, by simp [encInt, hneg], by omega, by omega⟩
  · obtain ⟨hv, hd, hne, hh⟩ := natDigitsAux_spec i.toNat i.toNat le_rfl
    obtain ⟨c, cs, hcons⟩ := List.exists_cons_of_ne_nil hne
    have hdc := hd c (by rw [hcons]; simp)
    exact ⟨c, cs, by simp [encInt, hneg]; exact hcons, by omega, by omega⟩

theorem parseStrBody_encStr {s : Str} (h : ValidStr s) (rest : List Nat) :
    encStr s ++ rest = 34 :: ((s.map escapeChar).flatten ++ (34 :: rest)) ∧
    parseStrBody ((s.map escapeChar).flatten ++ (34 :: rest)) = some (s, rest) := by
  constructor
  · simp [encStr]
  · exact parseStrBody_enc h rest

theorem parseValue_jstr {s : Str} (h : ValidStr s) (rest : List Nat) :
    parseValue (encStr s ++ rest) = some (.jstr s, rest) := by
  obtain ⟨heq, hp⟩ := parseStrBody_encStr h rest
  rw [heq]
  simp only [parseValue, List.head?_cons, if_pos rfl, List.drop_one, List.tail_cons, hp]
  rfl

theorem parseValue_jint (i : Int) (rest : List Nat) (hrest : NonDigitStart rest) :
    parseValue (encInt i ++ rest) = some (.jint i, rest) := by
  obtain ⟨c, cs, hcons, hc1, hc2⟩ := encInt_head i
  rw [hcons]
  simp only [parseValue, List.cons_append, List.head?_cons]
  rw [if_neg (by simp; omega), if_neg (by simp; omega), ← List.cons_append, ← hcons,
    parseIntTok_encInt i rest hrest]
  rfl


theorem skipWs_of_head {l : List Nat} {c : Nat} (h : l.head? = some c) (h1 : c ≠ 32)
    (h2 : c ≠ 9) (h3 : c ≠ 10) (h4 : c ≠ 13) : skipWs l = l := by
  cases l with
  | nil => simp at h
  | cons a as =>
    simp only [List.head?_cons, Option.some.injEq] at h
    subst h
    exact skipWs_cons h1 h2 h3 h4 as

theorem encStr_append_head (s : Str) (u : List Nat) : (encStr s ++ u).head? = some 34 := by
  simp [encStr]

theorem parseArrAux_enc : ∀ (xs : List Str) (x : Str), ValidStr x → (∀ y ∈ xs, ValidStr y) →
    ∀ fuel, xs.length + 1 ≤ fuel → ∀ rest,
    parseArrAux fuel (encStr x ++ ((xs.map (fun s => 44 :: 32 :: encStr s)).flatten ++ (93 :: rest))) =
      some (x :: xs, rest) := by
  intro xs
  induction xs with
  | nil =>
    intro x hx _ fuel hf rest
    obtain ⟨f, rfl⟩ : ∃ f, fuel = f + 1 := ⟨fuel - 1, by omega⟩
    obtain ⟨heq, hp⟩ := parseStrBody_encStr hx (93 :: rest)
    simp only [List.map_nil, List.flatten_nil, List.nil_append] at heq ⊢
    rw [heq]
    simp only [parseArrAux, List.head?_cons, if_pos rfl, List.drop_one, List.tail_cons, hp]
    rw [skipWs_cons (by omega) (by omega) (by omega) (by omega)]
    simp
  | cons x2 xs ih =>
    intro x hx hxs fuel hf rest
    obtain ⟨f, rfl⟩ : ∃ f, fuel = f + 1 := ⟨fuel - 1, by omega⟩
    have hstep : (((x2 :: xs).map (fun s => 44 :: 32 :: encStr s)).flatten ++ (93 :: rest)) =
        44 :: 32 :: (encStr x2 ++ ((xs.map (fun s => 44 :: 32 :: encStr s)).flatten ++ (93 :: rest))) := by
      simp [List.append_assoc]
    rw [hstep]
    obtain ⟨heq, hp⟩ :=
      parseStrBody_encStr hx (44 :: 32 :: (encStr x2 ++ ((xs.map (fun s => 44 :: 32 :: encStr s)).flatten ++ (93 :: rest))))
    rw [heq]
    simp only [parseArrAux, List.head?_cons, if_pos rfl, List.drop_one, List.tail_cons, hp]
    rw [skipWs_cons (by omega) (by omega) (by omega) (by omega)]
    simp only [List.head?_cons, if_pos rfl, List.drop_one, List.tail_cons]
    rw [skipWs_32, skipWs_of_head (encStr_append_head x2 _) (by omega) (by omega) (by omega) (by omega)]
    rw [ih x2 (hxs x2 (by simp)) (fun y hy => hxs y (by simp [hy])) f (by simp at hf; omega) rest]
    rfl

theorem arrItems_length_ge (xs : List Str) :
    xs.length ≤ ((xs.map (fun s => 44 :: 32 :: encStr s)).flatten).length := by
  induction xs with
  | nil => simp
  | cons x xs ih =>
    simp only [List.map_cons, List.flatten_cons, List.length_append, List.length_cons]
    omega

theorem parseValue_jarr {a : List Str} (h : ∀ y ∈ a, ValidStr y) (rest : List Nat) :
    parseValue (encArr a ++ rest) = some (.jarr a, rest) := by
  cases a with
  | nil =>
    simp only [encArr, List.cons_append, List.nil_append, parseValue, List.head?_cons]
    rw [if_neg (by simp)]
    simp only [if_true, List.drop_one, List.tail_cons, parseArr]
    rw [skipWs_cons (by omega) (by omega) (by omega) (by omega)]
    simp
  | cons x xs =>
    have hnorm : encArr (x :: xs) ++ rest =
        91 :: (encStr x ++ ((xs.map (fun s => 44 :: 32 :: encStr s)).flatten ++ (93 :: rest))) := by
      simp [encArr, List.append_assoc]
    rw [hnorm]
    simp only [parseValue, List.head?_cons]
    rw [if_neg (by simp)]
    simp only [if_true, List.drop_one, List.tail_cons, parseArr]
    rw [skipWs_of_head (encStr_append_head x _) (by omega) (by omega) (by omega) (by omega)]
    rw [if_neg (by rw [encStr_append_head]; simp)]
    rw [parseArrAux_enc xs x (h x (by simp)) (fun y hy => h y (by simp [hy])) _
      (by
        have h1 := arrItems_length_ge xs
        simp only [List.length_append, List.length_cons]
        have h2 : 2 ≤ (encStr x).length := by simp [encStr]
        omega) rest]
    rfl

theorem parseValue_enc {v : JValue} (hv : ValidVal v) (rest : List Nat)
    (hrest : NonDigitStart rest) : parseValue (encValue v ++ rest) = some (v, rest) := by
  cases v with
  | jstr s => exact parseValue_jstr hv rest
  | jint n => exact parseValue_jint n rest hrest
  | jarr a => exact parseValue_jarr hv rest

theorem encValue_not_ws (v : JValue) (u : List Nat) :
    skipWs (encValue v ++ u) = encValue v ++ u := by
  cases v with
  | jstr s => exact skipWs_of_head (encStr_append_head s u) (by omega) (by omega) (by omega) (by omega)
  | jint n =>
    obtain ⟨c, cs, hcons, hc1, hc2⟩ := encInt_head n
    simp only [encValue, hcons, List.cons_append]
    exact skipWs_cons (by omega) (by omega) (by omega) (by omega) _
  | jarr a =>
    cases a <;>
      simp only [encValue, encArr, List.cons_append] <;>
      exact skipWs_cons (by omega) (by omega) (by omega) (by omega) _

theorem encItem_append_head (kv : Str × JValue) (u : List Nat) :
    (encItem kv ++ u).head? = some 34 := by
  simp [encItem, encStr]

theorem parseItemsAux_enc : ∀ (kvs : List (Str × JValue)) (k : Str) (v : JValue),
    ValidStr k → ValidVal v → (∀ kv ∈ kvs, ValidStr kv.1 ∧ ValidVal kv.2) →
    ∀ fuel, kvs.length + 1 ≤ fuel → ∀ rest,
    parseItemsAux fuel (encItem (k, v) ++ ((kvs.map (fun kv => 44 :: 32 :: encItem kv)).flatten ++ (125 :: rest))) =
      some ((k, v) :: kvs, rest) := by
  intro kvs
  induction kvs with
  | nil =>
    intro k v hk hv _ fuel hf rest
    obtain ⟨f, rfl⟩ : ∃ f, fuel = f + 1 := ⟨fuel - 1, by omega⟩
    have hnorm : encItem (k, v) ++ ((([] : List (Str × JValue)).map (fun kv => 44 :: 32 :: encItem kv)).flatten ++ (125 :: rest)) =
        34 :: ((k.map escapeChar).flatten ++ (34 :: (58 :: 32 :: (encValue v ++ (125 :: rest))))) := by
      simp [encItem, encStr, List.append_assoc]
    rw [hnorm]
    simp only [parseItemsAux, List.head?_cons, if_pos rfl, List.drop_one, List.tail_cons,
      parseStrBody_enc hk]
    rw [skipWs_cons (by omega) (by omega) (by omega) (by omega)]
    simp only [List.head?_cons, if_pos rfl, List.drop_one, List.tail_cons]
    rw [skipWs_32, encValue_not_ws]
    rw [parseValue_enc hv (125 :: rest) (by intro d hd; simp at hd; subst hd; rfl)]
    simp only [if_true]
    rw [skipWs_cons (by omega) (by omega) (by omega) (by omega)]
    simp
  | cons kv2 kvs ih =>
    intro k v hk hv hkvs fuel hf rest
    obtain ⟨f, rfl⟩ : ∃ f, fuel = f + 1 := ⟨fuel - 1, by omega⟩
    have hnorm : encItem (k, v) ++ (((kv2 :: kvs).map (fun kv => 44 :: 32 :: encItem kv)).flatten ++ (125 :: rest)) =
        34 :: ((k.map escapeChar).flatten ++ (34 :: (58 :: 32 :: (encValue v ++
          (44 :: 32 :: (encItem kv2 ++ ((kvs.map (fun kv => 44 :: 32 :: encItem kv)).flatten ++ (125 :: rest)))))))) := by
      simp [encItem, encStr, List.append_assoc]
    rw [hnorm]
    simp only [parseItemsAux, List.head?_cons, if_pos rfl, List.drop_one, List.tail_cons,
      parseStrBody_enc hk]
    rw [skipWs_cons (by omega) (by omega) (by omega) (by omega)]
    simp only [List.head?_cons, if_pos rfl, List.drop_one, List.tail_cons]
    rw [skipWs_32, encValue_not_ws]
    rw [parseValue_enc hv _ (by intro d hd; simp at hd; subst hd; rfl)]
    simp only [if_true]
    rw [skipWs_cons (by omega) (by omega) (by omega) (by omega)]
    simp only [List.head?_cons, if_pos rfl, List.tail_cons]
    rw [skipWs_32, skipWs_of_head (encItem_append_head kv2 _) (by omega) (by omega) (by omega) (by omega)]
    have hkv2 := hkvs kv2 (by simp)
    rw [show encItem kv2 = encItem (kv2.1, kv2.2) from by rfl]
    rw [ih kv2.1 kv2.2 hkv2.1 hkv2.2 (fun y hy => hkvs y (by simp [hy])) f (by simp at hf; omega) rest]
    rfl

theorem dictInsert_notmem : ∀ (m : JMessage) (k : Str), k ∉ m.map Prod.fst → ∀ v,
    dictInsert m k v = m ++ [(k, v)] := by
  intro m
  induction m with
  | nil => intro k _ v; rfl
  | cons kv rest ih =>
    intro k hk v
    simp only [List.map_cons, List.mem_cons, not_or] at hk
    simp only [dictInsert, if_neg (show ¬ kv.1 = k from fun hh => hk.1 hh.symm), List.cons_append]
    rw [ih k hk.2 v]

theorem dictOf_go : ∀ (l : List (Str × JValue)) (acc : JMessage),
    ((acc ++ l).map Prod.fst).Nodup →
    List.foldl (fun m kv => dictInsert m kv.1 kv.2) acc l = acc ++ l := by
  intro l
  induction l with
  | nil => intro acc _; simp
  | cons kv tl ih =>
    intro acc h
    have hnd := h
    rw [List.map_append, List.nodup_append] at hnd
    have hk : kv.1 ∉ acc.map Prod.fst := by
      intro hmem
      exact hnd.2.2 hmem (by simp)
    simp only [List.foldl_cons]
    rw [dictInsert_notmem acc kv.1 hk kv.2]
    rw [ih (acc ++ [(kv.1, kv.2)]) (by simpa using h)]
    simp

theorem dictOf_nodup {l : List (Str × JValue)} (h : (l.map Prod.fst).Nodup) :
    dictOf l = l := by
  have := dictOf_go l [] (by simpa using h)
  simpa [dictOf] using this

theorem objItems_length_ge (kvs : List (Str × JValue)) :
    kvs.length ≤ ((kvs.map (fun kv => 44 :: 32 :: encItem kv)).flatten).length := by
  induction kvs with
  | nil => simp
  | cons kv kvs ih =>
    simp only [List.map_cons, List.flatten_cons, List.length_append, List.length_cons]
    omega

theorem parseObj_dumps (kv : Str × JValue) (kvs : List (Str × JValue))
    (h : ValidMsg (kv :: kvs)) :
    parseObj (dumps (kv :: kvs)) = some (dictOf ((kv.1, kv.2) :: kvs), []) := by
  have hnorm : dumps (kv :: kvs) =
      123 :: (encItem (kv.1, kv.2) ++ ((kvs.map (fun kv => 44 :: 32 :: encItem kv)).flatten ++ (125 :: []))) := by
    simp [dumps, List.append_assoc]
  have hhd := encItem_append_head (kv.1, kv.2)
    ((kvs.map (fun kv => 44 :: 32 :: encItem kv)).flatten ++ (125 :: []))
  have hkv := h.1 kv (by simp)
  rw [parseObj, hnorm]
  rw [skipWs_cons (by omega) (by omega) (by omega) (by omega)]
  simp only [List.head?_cons, if_pos rfl, List.drop_one, List.tail_cons]
  rw [skipWs_of_head hhd (by omega) (by omega) (by omega) (by omega)]
  simp only [if_true]
  rw [hhd]
  rw [if_neg (by simp : ¬((some 34 : Option Nat) = some 125))]
  rw [parseItemsAux_enc kvs kv.1 kv.2 hkv.1 hkv.2 (fun y hy => h.1 y (by simp [hy])) _
    (by
      have h1 := objItems_length_ge kvs
      simp only [List.length_append, List.length_cons]
      omega) []]
  rfl

theorem loads_dumps {m : JMessage} (h : ValidMsg m) : loads (dumps m) = some m := by
  cases m with
  | nil => rfl
  | cons kv kvs =>
    rw [loads, parseObj_dumps kv kvs h]
    rw [dictOf_nodup (by simpa using h.2)]
    rfl

/-! ## Framing lemmas -/

theorem unpack4_pack4 {n : Nat} (h : n < 4294967296) : unpack4 (pack4 n) = n := by
  simp only [pack4, unpack4]
  omega

theorem totalLen_eq_flatten (s : Wire) : totalLen s = s.flatten.length := by
  induction s with
  | nil => rfl
  | cons f fs ih => simp [totalLen, List.length_flatten] at ih ⊢

theorem recvAllAux_exact (need : Nat) : ∀ (fuel : Nat) (pf rest : Wire) (acc : List Nat),
    (∀ f ∈ pf, f ≠ []) → acc.length + totalLen pf = need → need - acc.length < fuel →
    recvAllAux need fuel acc (pf ++ rest) = (some (acc ++ pf.flatten), rest) := by
  intro fuel
  induction fuel with
  | zero => intro pf rest acc _ _ hfuel; omega
  | succ fuel ih =>
    intro pf rest acc hne hlen hfuel
    by_cases hlt : acc.length < need
    · cases pf with
      | nil =>
        simp [totalLen] at hlen
        omega
      | cons f pf2 =>
        have hf : f ≠ [] := hne f (by simp)
        obtain ⟨b, bs, rfl⟩ := List.exists_cons_of_ne_nil hf
        simp only [recvAllAux, if_pos hlt, List.cons_append, recv]
        by_cases hsplit : (b :: bs).length ≤ min 4096 (need - acc.length)
        · rw [if_pos hsplit]
          dsimp only
          rw [ih pf2 rest (acc ++ b :: bs) (fun g hg => hne g (by simp [hg]))
            (by simp [totalLen] at hlen ⊢; omega) (by simp; omega)]
          simp
        · rw [if_neg hsplit]
          have htk : (b :: bs).take (min 4096 (need - acc.length)) ≠ [] := by
            simp
            omega
          obtain ⟨c, cs, hcons⟩ := List.exists_cons_of_ne_nil htk
          rw [hcons]
          dsimp only
          rw [← hcons, ← List.cons_append]
          rw [ih ((b :: bs).drop (min 4096 (need - acc.length)) :: pf2) rest
            (acc ++ (b :: bs).take (min 4096 (need - acc.length)))
            (by
              intro g hg
              rcases List.mem_cons.1 hg with hgd | hgm
              · subst hgd
                rw [Ne, List.drop_eq_nil_iff]
                simp at hsplit ⊢
                omega
              · exact hne g (by simp [hgm]))
            (by
              simp only [totalLen, List.map_cons, List.sum_cons, List.length_append,
                List.length_take, List.length_drop] at hlen ⊢
              omega)
            (by
              simp only [List.length_append, List.length_take]
              omega)]
          simp only [List.flatten_cons, Option.some.injEq, Prod.mk.injEq, List.append_assoc]
          constructor
          · rw [← List.append_assoc ((b :: bs).take (min 4096 (need - acc.length)))]
            rw [List.take_append_drop]
          · trivial
    · have hn0 : totalLen pf = 0 := by omega
      cases pf with
      | nil => simp [recvAllAux, if_neg hlt]
      | cons f pf2 =>
        exfalso
        have hf : f ≠ [] := hne f (by simp)
        have hlenf : 0 < f.length := List.length_pos.2 hf
        simp [totalLen] at hlen
        omega

theorem dumps_length_ge (m : JMessage) : 2 ≤ (dumps m).length := by
  cases m <;> simp [dumps] <;> omega

theorem pack4_length (n : Nat) : (pack4 n).length = 4 := rfl

theorem receive_message_frame {m : JMessage} (hv : ValidMsg m)
    (hlen : (dumps m).length < 4294967296) (rest : Wire) :
    receive_message (frameBytes m :: rest) = (some m, rest) := by
  have hd2 := dumps_length_ge m
  have hfl : (frameBytes m).length = 4 + (dumps m).length := by
    simp [frameBytes, pack4]
    omega
  rw [receive_message, recv]
  rw [if_neg (by omega : ¬(frameBytes m).length ≤ 4)]
  have htake : (frameBytes m).take 4 = pack4 (dumps m).length := by
    rw [frameBytes, show (4:Nat) = (pack4 (dumps m).length).length from rfl, List.take_left]
  have hdrop : (frameBytes m).drop 4 = dumps m := by
    rw [frameBytes, show (4:Nat) = (pack4 (dumps m).length).length from rfl, List.drop_left]
  rw [htake, hdrop]
  have hu : unpack4 (pack4 (dumps m).length) = (dumps m).length := unpack4_pack4 hlen
  simp only [pack4] at hu ⊢
  rw [if_neg (by simp)]
  rw [hu]
  rw [show dumps m :: rest = [dumps m] ++ rest from rfl]
  rw [recvAllAux_exact (dumps m).length ((dumps m).length + 1) [dumps m] rest []
    (by
      intro f hf
      simp at hf
      subst hf
      intro hc
      rw [hc] at hd2
      simp at hd2)
    (by simp [totalLen]) (by omega)]
  simp only [List.flatten_cons, List.flatten_nil, List.append_nil, List.nil_append]
  rw [loads_dumps hv]

theorem recvAll_exact_nil (need fuel : Nat) (pf : Wire) (acc : List Nat)
    (h1 : ∀ f ∈ pf, f ≠ []) (h2 : acc.length + totalLen pf = need)
    (h3 : need - acc.length < fuel) :
    recvAllAux need fuel acc pf = (some (acc ++ pf.flatten), []) := by
  have := recvAllAux_exact need fuel pf [] acc h1 h2 h3
  rwa [List.append_nil] at this

theorem receive_message_frag {m : JMessage} (hv : ValidMsg m)
    (hlen : (dumps m).length < 4294967296) (frags : Wire)
    (hflat : frags.flatten = frameBytes m) (hne : ∀ f ∈ frags, f ≠ [])
    (hhead : 4 ≤ (frags.headD []).length) :
    receive_message frags = (some m, []) := by
  have hd2 := dumps_length_ge m
  have hfl : (frameBytes m).length = 4 + (dumps m).length := by
    simp [frameBytes, pack4]
    omega
  cases frags with
  | nil =>
    exfalso
    simp at hflat
    rw [hflat] at hfl
    simp at hfl
    omega
  | cons f0 fr =>
    simp only [List.headD_cons] at hhead
    have hflat2 : f0 ++ fr.flatten = frameBytes m := by simpa using hflat
    have htake : f0.take 4 = pack4 (dumps m).length := by
      have h1 : (f0 ++ fr.flatten).take 4 = f0.take 4 := List.take_append_of_le_length hhead
      rw [hflat2] at h1
      rw [← h1, frameBytes, show (4:Nat) = (pack4 (dumps m).length).length from rfl,
        List.take_left]
    have hdroptail : f0.drop 4 ++ fr.flatten = dumps m := by
      have h1 : (f0 ++ fr.flatten).drop 4 = f0.drop 4 ++ fr.flatten :=
        List.drop_append_of_le_length hhead
      rw [hflat2] at h1
      rw [← h1, frameBytes, show (4:Nat) = (pack4 (dumps m).length).length from rfl,
        List.drop_left]
    rw [receive_message, recv]
    by_cases hle : f0.length ≤ 4
    · have h4 : f0.length = 4 := by omega
      rw [if_pos hle]
      have hf0 : f0 = pack4 (dumps m).length := by
        rw [← htake, List.take_of_length_le (by omega)]
      have hfr : fr.flatten = dumps m := by
        rw [← hdroptail, List.drop_of_length_le (by omega)]
        simp
      rw [hf0]
      have hu : unpack4 (pack4 (dumps m).length) = (dumps m).length := unpack4_pack4 hlen
      simp only [pack4] at hu ⊢
      rw [if_neg (by simp)]
      rw [hu]
      rw [recvAll_exact_nil (dumps m).length ((dumps m).length + 1) fr []
        (fun g hg => hne g (by simp [hg]))
        (by rw [List.length_nil, totalLen_eq_flatten, hfr]; omega)
        (by omega)]
      rw [hfr]
      simp only [List.nil_append]
      rw [loads_dumps hv]
    · rw [if_neg hle]
      rw [htake]
      have hu : unpack4 (pack4 (dumps m).length) = (dumps m).length := unpack4_pack4 hlen
      simp only [pack4] at hu ⊢
      rw [if_neg (by simp)]
      rw [hu]
      rw [recvAll_exact_nil (dumps m).length ((dumps m).length + 1) (f0.drop 4 :: fr) []
        (by
          intro g hg
          rcases List.mem_cons.1 hg with hgd | hgm
          · subst hgd
            rw [Ne, List.drop_eq_nil_iff]
            omega
          · exact hne g (by simp [hgm]))
        (by
          rw [List.length_nil, totalLen_eq_flatten]
          simp only [List.flatten_cons]
          rw [hdroptail]
          omega)
        (by omega)]
      simp only [List.flatten_cons, List.nil_append]
      rw [hdroptail]
      rw [loads_dumps hv]

/-! ## Upload loop, chunking, and preview lemmas -/

theorem recvUpToAux_exhaust (need : Nat) : ∀ (fuel : Nat) (pf : Wire) (acc : List Nat),
    (∀ f ∈ pf, f ≠ []) → acc.length + totalLen pf < need → need - acc.length < fuel →
    recvUpToAux need fuel acc pf = (acc ++ pf.flatten, []) := by
  intro fuel
  induction fuel with
  | zero => intro pf acc _ _ hfuel; omega
  | succ fuel ih =>
    intro pf acc hne hlen hfuel
    have hlt : acc.length < need := by omega
    cases pf with
    | nil =>
      simp only [recvUpToAux, if_pos hlt, recv]
      simp
    | cons f pf2 =>
      have hf : f ≠ [] := hne f (by simp)
      obtain ⟨b, bs, rfl⟩ := List.exists_cons_of_ne_nil hf
      simp only [recvUpToAux, if_pos hlt, recv]
      by_cases hsplit : (b :: bs).length ≤ min 4096 (need - acc.length)
      · rw [if_pos hsplit]
        dsimp only
        rw [ih pf2 (acc ++ b :: bs) (fun g hg => hne g (by simp [hg]))
          (by simp [totalLen] at hlen ⊢; omega) (by simp; omega)]
        simp
      · rw [if_neg hsplit]
        have htk : (b :: bs).take (min 4096 (need - acc.length)) ≠ [] := by
          simp
          omega
        obtain ⟨c, cs, hcons⟩ := List.exists_cons_of_ne_nil htk
        rw [hcons]
        dsimp only
        rw [← hcons]
        rw [ih ((b :: bs).drop (min 4096 (need - acc.length)) :: pf2)
          (acc ++ (b :: bs).take (min 4096 (need - acc.length)))
          (by
            intro g hg
            rcases List.mem_cons.1 hg with hgd | hgm
            · subst hgd
              rw [Ne, List.drop_eq_nil_iff]
              simp at hsplit ⊢
              omega
            · exact hne g (by simp [hgm]))
          (by
            simp only [totalLen, List.map_cons, List.sum_cons, List.length_append,
              List.length_take, List.length_drop] at hlen ⊢
            omega)
          (by
            simp only [List.length_append, List.length_take]
            omega)]
        simp only [List.flatten_cons, Prod.mk.injEq, List.append_assoc]
        constructor
        · rw [← List.append_assoc ((b :: bs).take (min 4096 (need - acc.length)))]
          rw [List.take_append_drop]
        · trivial

theorem recvUpTo_exhaust {sz : Int} {s : Wire} (hne : ∀ f ∈ s, f ≠ [])
    (hshort : (totalLen s : Int) < sz) : recvUpTo sz s = (s.flatten, []) := by
  rw [recvUpTo, recvUpToAux_exhaust sz.toNat (sz.toNat + 1) s [] hne
    (by simp; omega) (by omega)]
  simp

theorem chunksAux_flatten : ∀ (fuel : Nat) (c : List Nat), c.length ≤ fuel →
    (chunksAux fuel c).flatten = c := by
  intro fuel
  induction fuel with
  | zero =>
    intro c hc
    have hc0 : c = [] := List.length_eq_zero.1 (by omega)
    subst hc0
    rfl
  | succ fuel ih =>
    intro c hc
    by_cases hce : c.isEmpty
    · simp only [chunksAux, if_pos hce]
      simp [List.isEmpty_iff] at hce
      simp [hce]
    · simp only [chunksAux, if_neg hce, List.flatten_cons]
      rw [ih (c.drop 4096) (by simp; omega)]
      exact List.take_append_drop 4096 c

theorem chunks_flatten (c : List Nat) : (chunks c).flatten = c :=
  chunksAux_flatten (c.length + 1) c (by omega)

set_option maxHeartbeats 2000000 in
theorem utf8IgnoreAux_length_le : ∀ (fuel : Nat) (l : List Nat),
    (utf8IgnoreAux fuel l).length ≤ l.length := by
  intro fuel l
  induction fuel, l using utf8IgnoreAux.induct <;>
    simp only [utf8IgnoreAux, List.length_cons, List.length_nil] <;>
    first
      | omega
      | (split_ifs <;> simp_all <;> omega)
      | simp_all

theorem utf8DecodeIgnore_length_le (l : List Nat) : (utf8DecodeIgnore l).length ≤ l.length :=
  utf8IgnoreAux_length_le (l.length + 1) l

/-! ## Command messages as the client driver builds them -/

/-- The framed `upload` command message (`client.upload_file`). -/
def mkUpload (name : Str) (sz : Int) : JMessage :=
  [(strLit "command", .jstr (strLit "upload")),
   (strLit "filename", .jstr name), (strLit "size", .jint sz)]

/-- An `upload` command message with no `size` field. -/
def mkUploadNoSize (name : Str) : JMessage :=
  [(strLit "command", .jstr (strLit "upload")), (strLit "filename", .jstr name)]

/-- The framed `download` command message (`client.download_file`). -/
def mkDownload (name : Str) : JMessage :=
  [(strLit "command", .jstr (strLit "download")), (strLit "filename", .jstr name)]

/-- The framed `view` command message (`client.view_file`). -/
def mkView (name : Str) : JMessage :=
  [(strLit "command", .jstr (strLit "view")), (strLit "filename", .jstr name)]

theorem dispatch_upload (fs : FS) (name : Str) (sz : Int) (s : Wire) (hname : name ≠ []) :
    dispatch fs (mkUpload name sz) s =
      ⟨[.frame uploadOkResp], fsWrite fs name (recvUpTo sz s).1, (recvUpTo sz s).2⟩ := by
  have hc : jGet (mkUpload name sz) (strLit "command") = some (.jstr (strLit "upload")) := rfl
  have hf : (jGet (mkUpload name sz) (strLit "filename")).getD (.jstr []) = .jstr name := rfl
  have hs : (jGet (mkUpload name sz) (strLit "size")).getD (.jint 0) = .jint sz := rfl
  have ht : jTruthy (.jstr name) = true := by
    simp [jTruthy, hname]
  rw [dispatch]
  simp only [hc, hf, hs, ht]
  rw [if_neg (by decide), if_pos ⟨by decide, trivial⟩]
  rfl

theorem dispatch_uploadNoSize (fs : FS) (name : Str) (s : Wire) (hname : name ≠ []) :
    dispatch fs (mkUploadNoSize name) s = ⟨[.frame uploadOkResp], fsWrite fs name [], s⟩ := by
  have hc : jGet (mkUploadNoSize name) (strLit "command") = some (.jstr (strLit "upload")) := rfl
  have hf : (jGet (mkUploadNoSize name) (strLit "filename")).getD (.jstr []) = .jstr name := rfl
  have hs : (jGet (mkUploadNoSize name) (strLit "size")).getD (.jint 0) = .jint 0 := rfl
  have ht : jTruthy (.jstr name) = true := by simp [jTruthy, hname]
  rw [dispatch]
  simp only [hc, hf, hs, ht]
  rw [if_neg (by decide), if_pos ⟨by decide, trivial⟩]
  rfl

theorem dispatch_download (fs : FS) (name : Str) (s : Wire) (hname : name ≠ []) :
    dispatch fs (mkDownload name) s =
      (match fsLookup fs name with
       | some content => ⟨.frame (dlOkResp content.length) :: (chunks content).map .raw, fs, s⟩
       | none => ⟨[.frame notFoundResp], fs, s⟩) := by
  have hc : jGet (mkDownload name) (strLit "command") = some (.jstr (strLit "download")) := rfl
  have hf : (jGet (mkDownload name) (strLit "filename")).getD (.jstr []) = .jstr name := rfl
  have ht : jTruthy (.jstr name) = true := by simp [jTruthy, hname]
  rw [dispatch]
  simp only [hc, hf, ht]
  rw [if_neg (by decide), if_neg (fun hh => (by decide :
    ¬(some (JValue.jstr (strLit "download")) = some (.jstr (strLit "upload")))) hh.1),
    if_pos ⟨by decide, trivial⟩]

theorem dispatch_view (fs : FS) (name : Str) (s : Wire) (hname : name ≠ []) :
    dispatch fs (mkView name) s =
      (match fsLookup fs name with
       | some content => ⟨[.frame (viewOkResp (utf8DecodeIgnore (content.take 1024)))], fs, s⟩
       | none => ⟨[.frame notFoundResp], fs, s⟩) := by
  have hc : jGet (mkView name) (strLit "command") = some (.jstr (strLit "view")) := rfl
  have hf : (jGet (mkView name) (strLit "filename")).getD (.jstr []) = .jstr name := rfl
  have ht : jTruthy (.jstr name) = true := by simp [jTruthy, hname]
  rw [dispatch]
  simp only [hc, hf, ht]
  rw [if_neg (by decide),
    if_neg (fun hh => (by decide :
      ¬(some (JValue.jstr (strLit "view")) = some (.jstr (strLit "upload")))) hh.1),
    if_neg (fun hh => (by decide :
      ¬(some (JValue.jstr (strLit "view")) = some (.jstr (strLit "download")))) hh.1),
    if_pos ⟨by decide, trivial⟩]

theorem dispatch_unknown (fs : FS) (m : JMessage) (s : Wire) (h : ¬ matchesSomeBranch m) :
    dispatch fs m s = ⟨[], fs, s⟩ := by
  rw [matchesSomeBranch] at h
  push_neg at h
  rw [dispatch]
  rw [if_neg h.1]
  by_cases htr : jTruthy ((jGet m (strLit "filename")).getD (.jstr [])) = true
  · have h2 := h.2
    rw [if_neg (fun hh => (h2 (Or.inl hh.1)).elim htr)]
    rw [if_neg (fun hh => (h2 (Or.inr (Or.inl hh.1))).elim htr)]
    rw [if_neg (fun hh => (h2 (Or.inr (Or.inr (Or.inl hh.1)))).elim htr)]
    rw [if_neg (fun hh => (h2 (Or.inr (Or.inr (Or.inr hh.1)))).elim htr)]
  · rw [if_neg (fun hh => htr hh.2), if_neg (fun hh => htr hh.2),
      if_neg (fun hh => htr hh.2), if_neg (fun hh => htr hh.2)]

theorem commandLoop_unknown_step (fuel : Nat) (fs : FS) (m : JMessage) (rest : Wire)
    (h : ¬ matchesSomeBranch m) (hv : ValidMsg m) (hlen : (dumps m).length < 4294967296) :
    commandLoop (fuel + 1) fs (frameBytes m :: rest) = commandLoop fuel fs rest := by
  simp only [commandLoop, receive_message_frame hv hlen rest, dispatch_unknown fs m rest h]
  simp

theorem fsLookup_fsWrite (fs : FS) (n : Str) (c : List Nat) :
    fsLookup (fsWrite fs n c) n = some c := by
  induction fs with
  | nil => simp [fsWrite, fsLookup]
  | cons f rest ih =>
    by_cases hn : f.1 = n
    · simp [fsWrite, fsLookup, hn]
    · simp only [fsWrite, if_neg hn, fsLookup, List.find?_cons]
      rw [show (decide (f.1 = n)) = false from by simp [hn]]
      exact ih

theorem handle_client_closed (creds : Creds) (fs : FS) (s : Wire) (s1 : Wire)
    (hrecv : receive_message s = (none, s1)) :
    handle_client creds fs s = ⟨[], false, false, false, fs, true⟩ := by
  rw [handle_client, authenticate_client, hrecv]

theorem handle_client_falsy (creds : Creds) (fs : FS) (s : Wire) (s1 : Wire)
    (hrecv : receive_message s = (some [], s1)) :
    handle_client creds fs s = ⟨[], false, false, false, fs, true⟩ := by
  rw [handle_client, authenticate_client, hrecv]
  simp

theorem handle_client_auth_fail (creds : Creds) (fs : FS) (s : Wire) (m : JMessage) (s1 : Wire)
    (hrecv : receive_message s = (some m, s1)) (hm : m ≠ [])
    (hauth : authUser creds m = none) :
    handle_client creds fs s = ⟨[.frame authFailResp], false, false, false, fs, true⟩ := by
  rw [handle_client, authenticate_client, hrecv]
  simp only [if_neg hm, hauth]

theorem handle_client_auth_empty (creds : Creds) (fs : FS) (s : Wire) (m : JMessage) (s1 : Wire)
    (hrecv : receive_message s = (some m, s1)) (hm : m ≠ [])
    (hauth : authUser creds m = some []) :
    handle_client creds fs s = ⟨[.frame authOkResp], false, false, false, fs, true⟩ := by
  rw [handle_client, authenticate_client, hrecv]
  simp only [if_neg hm, hauth]
  simp

theorem handle_client_auth_ok (creds : Creds) (fs : FS) (s : Wire) (m : JMessage) (s1 : Wire)
    (u : Str) (hrecv : receive_message s = (some m, s1)) (hm : m ≠ [])
    (hauth : authUser creds m = some u) (hu : u ≠ []) :
    handle_client creds fs s =
      ⟨.frame authOkResp :: (commandLoop (totalLen s1 + 1) fs s1).1, true, true, true,
        (commandLoop (totalLen s1 + 1) fs s1).2, true⟩ := by
  rw [handle_client, authenticate_client, hrecv]
  simp only [if_neg hm, hauth]
  rw [if_neg hu]
  simp

/-! ## Claim theorems -/

/-- C1, claim as stated is FALSE: the specification says a channel that
closes before `size` raw bytes arrive "must be surfaced as an error to the
client".  At the concrete input below (declared size 5, stream closing
after three bytes) the upload branch leaves the three-byte partial file on
disk and responds with the framed SUCCESS message
`{'status': 'success', 'message': 'File uploaded successfully'}` — the
`break` on an empty `recv` falls through to the success response, and no
error response exists on that path. -/
theorem C1_counterexample :
    (dispatch [] (mkUpload (strLit "f") 5) [[1, 2, 3]]).outs = [.frame uploadOkResp] ∧
    jGet uploadOkResp (strLit "status") = some (.jstr (strLit "success")) ∧
    fsLookup (dispatch [] (mkUpload (strLit "f") 5) [[1, 2, 3]]).fs (strLit "f") =
      some [1, 2, 3] := by
  decide

/-- C1 amended: for every upload command with a declared byte size, if the
channel closes before `size` raw bytes have been consumed, the partial
file is left on disk with no automatic rollback — but the server responds
with the framed SUCCESS message, not an error: truncation is silent. -/
theorem C1_upload_truncation (fs : FS) (name : Str) (sz : Int) (s : Wire)
    (hname : name ≠ []) (hne : ∀ f ∈ s, f ≠ []) (hshort : (totalLen s : Int) < sz) :
    dispatch fs (mkUpload name sz) s = ⟨[.frame uploadOkResp], fsWrite fs name s.flatten, []⟩ ∧
    fsLookup (dispatch fs (mkUpload name sz) s).fs name = some s.flatten ∧
    (s.flatten.length : Int) < sz := by
  have hup := dispatch_upload fs name sz s hname
  have hex : recvUpTo sz s = (s.flatten, []) := recvUpTo_exhaust hne hshort
  rw [hup, hex]
  refine ⟨rfl, ?_, ?_⟩
  · exact fsLookup_fsWrite fs name s.flatten
  · have := totalLen_eq_flatten s
    omega

/-- C1 witness: the amended theorem applied at a concrete truncated
upload (declared size 5, three bytes received before closure). -/
theorem C1_witness :
    ((strLit "f" : Str) ≠ [] ∧ (∀ f ∈ [[1, 2, 3]], f ≠ ([] : List Nat)) ∧
      ((totalLen [[1, 2, 3]] : Int) < 5)) ∧
    dispatch [] (mkUpload (strLit "f") 5) [[1, 2, 3]] =
      ⟨[.frame uploadOkResp], fsWrite [] (strLit "f") [[1, 2, 3]].flatten, []⟩ ∧
    fsLookup (dispatch [] (mkUpload (strLit "f") 5) [[1, 2, 3]]).fs (strLit "f") =
      some [[1, 2, 3]].flatten ∧
    (([[1, 2, 3]].flatten.length : Int) < 5) :=
  ⟨⟨by decide, by decide, by decide⟩,
    C1_upload_truncation [] (strLit "f") 5 [[1, 2, 3]] (by decide) (by decide) (by decide)⟩

/-- C2, claim as stated is FALSE: the specification says an unrecognized
command yields a framed `status: error` response with a descriptive
message.  The dispatch chain has no `else` branch, so at the concrete
command `{'command': 'quit'}` the server sends NOTHING — no write of any
kind is performed, and the user directory and stream are untouched. -/
theorem C2_counterexample :
    dispatch [(strLit "a", [1])] [(strLit "command", .jstr (strLit "quit"))] [[7]] =
      ⟨[], [(strLit "a", [1])], [[7]]⟩ ∧
    (dispatch [(strLit "a", [1])] [(strLit "command", .jstr (strLit "quit"))] [[7]]).outs = [] := by
  decide

/-- C2 amended: a framed command matching no branch of the dispatch chain
(an unknown `command`, or a known file command with a missing or falsy
`filename`) produces NO response at all — the dispatcher performs no
socket write, changes no file, consumes no raw bytes — and the session
loop continues with the next message as if nothing had happened. -/
theorem C2_silent_fallthrough (fs : FS) (m : JMessage) (s : Wire)
    (h : ¬ matchesSomeBranch m) :
    dispatch fs m s = ⟨[], fs, s⟩ ∧
    ∀ fuel rest, ValidMsg m → (dumps m).length < 4294967296 →
      commandLoop (fuel + 1) fs (frameBytes m :: rest) = commandLoop fuel fs rest :=
  ⟨dispatch_unknown fs m s h,
    fun fuel rest hv hlen => commandLoop_unknown_step fuel fs m rest h hv hlen⟩

/-- C2 witness: the amended theorem applied to the concrete unknown
command `{'command': 'quit'}`. -/
theorem C2_witness :
    (¬ matchesSomeBranch [(strLit "command", .jstr (strLit "quit"))]) ∧
    dispatch [] [(strLit "command", .jstr (strLit "quit"))] [] = ⟨[], [], []⟩ ∧
    commandLoop 1 [] [frameBytes [(strLit "command", .jstr (strLit "quit"))]] =
      commandLoop 0 [] [] :=
  ⟨by decide,
    (C2_silent_fallthrough [] [(strLit "command", .jstr (strLit "quit"))] [] (by decide)).1,
    (C2_silent_fallthrough [] [(strLit "command", .jstr (strLit "quit"))] [] (by decide)).2
      0 [] (by decide) (by decide)⟩

/-- C7: for every download command naming a nonempty filename, a missing
file yields the framed `{'status': 'error', 'message': 'File not found'}`
response, and an existing file yields the framed success response carrying
the file's exact size followed by raw unframed chunks whose concatenation
is exactly the file's contents (hence exactly `size` raw bytes). -/
theorem C7_download (fs : FS) (name : Str) (s : Wire) (hname : name ≠ []) :
    (fsLookup fs name = none →
      dispatch fs (mkDownload name) s = ⟨[.frame notFoundResp], fs, s⟩) ∧
    (∀ content, fsLookup fs name = some content →
      dispatch fs (mkDownload name) s =
        ⟨.frame (dlOkResp content.length) :: (chunks content).map .raw, fs, s⟩ ∧
      (chunks content).flatten = content) := by
  constructor
  · intro habs
    rw [dispatch_download fs name s hname, habs]
  · intro content hc
    rw [dispatch_download fs name s hname, hc]
    exact ⟨rfl, chunks_flatten content⟩

/-- C7 witness: both download branches evaluated concretely — a present
three-byte file, and a missing file. -/
theorem C7_witness :
    ((strLit "f" : Str) ≠ [] ∧ fsLookup [] (strLit "f") = none ∧
      fsLookup [(strLit "f", [1, 2, 3])] (strLit "f") = some [1, 2, 3]) ∧
    dispatch [] (mkDownload (strLit "f")) [] = ⟨[.frame notFoundResp], [], []⟩ ∧
    (dispatch [(strLit "f", [1, 2, 3])] (mkDownload (strLit "f")) [] =
        ⟨.frame (dlOkResp (3 : Nat)) :: (chunks [1, 2, 3]).map .raw, [(strLit "f", [1, 2, 3])], []⟩ ∧
      (chunks [1, 2, 3]).flatten = [1, 2, 3]) :=
  ⟨⟨by decide, by decide, by decide⟩,
    (C7_download [] (strLit "f") [] (by decide)).1 (by decide),
    (C7_download [(strLit "f", [1, 2, 3])] (strLit "f") [] (by decide)).2 [1, 2, 3] (by decide)⟩

/-- C10: upload is not atomic — the destination file is opened in
write/truncate mode before any transfer byte is read, so the final
contents at `filename` are exactly the raw bytes received by the upload
loop, independent of whatever was stored there before; and when the
`size` field is absent it defaults to 0, so the command truncates the
file to empty, responds with the framed success message, and consumes no
raw bytes from the channel. -/
theorem C10_upload_truncate_first (fs : FS) (name : Str) (s : Wire) (hname : name ≠ []) :
    (dispatch fs (mkUploadNoSize name) s = ⟨[.frame uploadOkResp], fsWrite fs name [], s⟩ ∧
     fsLookup (dispatch fs (mkUploadNoSize name) s).fs name = some []) ∧
    (∀ sz : Int, fsLookup (dispatch fs (mkUpload name sz) s).fs name = some (recvUpTo sz s).1) := by
  refine ⟨⟨dispatch_uploadNoSize fs name s hname, ?_⟩, ?_⟩
  · rw [dispatch_uploadNoSize fs name s hname]
    exact fsLookup_fsWrite fs name []
  · intro sz
    rw [dispatch_upload fs name sz s hname]
    exact fsLookup_fsWrite fs name (recvUpTo sz s).1

/-- C10 witness: an existing file `f` with prior contents `[7, 7, 7]` is
emptied by a size-less upload (stream untouched), and a sized upload
replaces it with exactly the received bytes. -/
theorem C10_witness :
    ((strLit "f" : Str) ≠ []) ∧
    (dispatch [(strLit "f", [7, 7, 7])] (mkUploadNoSize (strLit "f")) [[9, 9]] =
        ⟨[.frame uploadOkResp], fsWrite [(strLit "f", [7, 7, 7])] (strLit "f") [], [[9, 9]]⟩ ∧
      fsLookup (dispatch [(strLit "f", [7, 7, 7])] (mkUploadNoSize (strLit "f")) [[9, 9]]).fs
        (strLit "f") = some []) ∧
    fsLookup (dispatch [(strLit "f", [7, 7, 7])] (mkUpload (strLit "f") 2) [[9, 9]]).fs
      (strLit "f") = some (recvUpTo 2 [[9, 9]]).1 :=
  ⟨by decide,
    (C10_upload_truncate_first [(strLit "f", [7, 7, 7])] (strLit "f") [[9, 9]] (by decide)).1,
    (C10_upload_truncate_first [(strLit "f", [7, 7, 7])] (strLit "f") [[9, 9]] (by decide)).2 2⟩

/-- C3, claim as stated is FALSE: the specification says the receiver
reads exactly 4 bytes of length prefix, accumulating across partial
reads.  The code issues a single `recv(4)`: at the concrete fragmentation
below, in which the transport delivers only the first 2 bytes of the
frame in the first read, `struct.unpack` raises (caught) and
`receive_message` returns `None` instead of recovering the message. -/
theorem C3_counterexample :
    ([(frameBytes [(strLit "a", .jint 1)]).take 2,
      (frameBytes [(strLit "a", .jint 1)]).drop 2]).flatten =
        frameBytes [(strLit "a", .jint 1)] ∧
    (∀ f ∈ [(frameBytes [(strLit "a", .jint 1)]).take 2,
      (frameBytes [(strLit "a", .jint 1)]).drop 2], f ≠ ([] : List Nat)) ∧
    (receive_message [(frameBytes [(strLit "a", .jint 1)]).take 2,
      (frameBytes [(strLit "a", .jint 1)]).drop 2]).1 = none := by
  decide

/-- C3 amended: for every valid message and every fragmentation of its
frame whose FIRST read delivers at least the whole 4-byte length prefix,
receiving from the resulting stream recovers the message byte-for-byte;
the payload may be fragmented arbitrarily, the inner loop accumulating
exactly the declared number of payload bytes. -/
theorem C3_frame_roundtrip (m : JMessage) (frags : Wire) (hv : ValidMsg m)
    (hlen : (dumps m).length < 4294967296) (hflat : frags.flatten = frameBytes m)
    (hne : ∀ f ∈ frags, f ≠ []) (hhead : 4 ≤ (frags.headD []).length) :
    receive_message frags = (some m, []) :=
  receive_message_frag hv hlen frags hflat hne hhead

/-- C3 witness: the amended theorem applied to the message
`{'a': 1}` framed and split mid-payload (6 bytes, then the rest). -/
theorem C3_witness :
    (ValidMsg [(strLit "a", .jint 1)] ∧
      ([(frameBytes [(strLit "a", .jint 1)]).take 6,
        (frameBytes [(strLit "a", .jint 1)]).drop 6]).flatten =
          frameBytes [(strLit "a", .jint 1)] ∧
      4 ≤ (([(frameBytes [(strLit "a", .jint 1)]).take 6,
        (frameBytes [(strLit "a", .jint 1)]).drop 6]).headD []).length) ∧
    receive_message [(frameBytes [(strLit "a", .jint 1)]).take 6,
      (frameBytes [(strLit "a", .jint 1)]).drop 6] = (some [(strLit "a", .jint 1)], []) :=
  ⟨⟨by decide, by decide, by decide⟩,
    C3_frame_roundtrip [(strLit "a", .jint 1)] _ (by decide) (by decide) (by decide)
      (by decide) (by decide)⟩

/-- C4, claim as stated is FALSE: the specification says an orderly
channel closure and an undecodable payload are distinguishable by the
caller.  Both return the same `None`: at the concrete inputs below — the
already-closed channel, and a well-framed 3-byte payload `xyz` that fails
`json.loads` — `receive_message` produces identical results, the decode
failure being reported only on the server's log. -/
theorem C4_counterexample :
    loads [120, 121, 122] = none ∧
    receive_message [] = (none, []) ∧
    receive_message [pack4 3 ++ [120, 121, 122]] = (none, []) ∧
    (receive_message []).1 = (receive_message [pack4 3 ++ [120, 121, 122]]).1 := by
  decide

/-- C4 amended: a peer that closed before any bytes arrive yields `None`,
and a complete frame whose ASCII payload fails to decode ALSO yields the
same `None`; the two failure modes collapse to one return value and are
not distinguishable by the caller. -/
theorem C4_failures_collapse :
    receive_message [] = (none, []) ∧
    ∀ (payload : List Nat), payload ≠ [] → loads payload = none →
      payload.length < 4294967296 →
      receive_message [pack4 payload.length ++ payload] = (none, []) := by
  refine ⟨rfl, ?_⟩
  intro payload hne hbad hlen
  have hp1 : 1 ≤ payload.length := by
    cases payload with
    | nil => exact absurd rfl hne
    | cons a l => simp
  have hfl : (pack4 payload.length ++ payload).length = 4 + payload.length := by
    simp [pack4]
    omega
  rw [receive_message, recv]
  rw [if_neg (show ¬(pack4 payload.length ++ payload).length ≤ 4 from by rw [hfl]; omega)]
  have htake : (pack4 payload.length ++ payload).take 4 = pack4 payload.length := by
    rw [show (4:Nat) = (pack4 payload.length).length from rfl, List.take_left]
  have hdrop : (pack4 payload.length ++ payload).drop 4 = payload := by
    rw [show (4:Nat) = (pack4 payload.length).length from rfl, List.drop_left]
  rw [htake, hdrop]
  have hu : unpack4 (pack4 payload.length) = payload.length := unpack4_pack4 hlen
  simp only [pack4] at hu ⊢
  rw [if_neg (by simp)]
  rw [hu]
  rw [recvAll_exact_nil payload.length (payload.length + 1) [payload] []
    (by
      intro f hf
      simp at hf
      subst hf
      exact hne)
    (by simp [totalLen]) (by omega)]
  simp only [List.flatten_cons, List.flatten_nil, List.append_nil, List.nil_append]
  rw [hbad]

/-- C4 witness: the amended theorem applied to the concrete undecodable
payload `xyz`. -/
theorem C4_witness :
    (([120, 121, 122] : List Nat) ≠ [] ∧ loads [120, 121, 122] = none) ∧
    receive_message [] = (none, []) ∧
    receive_message [pack4 3 ++ [120, 121, 122]] = (none, []) :=
  ⟨⟨by decide, by decide⟩, C4_failures_collapse.1,
    C4_failures_collapse.2 [120, 121, 122] (by decide) (by decide) (by decide)⟩

/-- C8: round-trip of the structured encoding — for every valid message
(a dict with distinct string keys whose values are strings, integers, or
arrays of strings, all text being Unicode scalar values), encoding with
`dumps` and decoding with `loads` yields the original message exactly. -/
theorem C8_roundtrip (m : JMessage) (h : ValidMsg m) : loads (dumps m) = some m :=
  loads_dumps h

/-- C8 witness: the round-trip theorem applied to a concrete message
exercising escapes, an astral codepoint, a negative integer, and string
arrays. -/
theorem C8_witness :
    ValidMsg [(strLit "a", .jstr [34, 92, 10, 7, 955, 65600, 120]),
      (strLit "n", .jint (-45)), (strLit "fs", .jarr [strLit "x.bin", []]),
      (strLit "z", .jarr [])] ∧
    loads (dumps [(strLit "a", .jstr [34, 92, 10, 7, 955, 65600, 120]),
      (strLit "n", .jint (-45)), (strLit "fs", .jarr [strLit "x.bin", []]),
      (strLit "z", .jarr [])]) =
      some [(strLit "a", .jstr [34, 92, 10, 7, 955, 65600, 120]),
        (strLit "n", .jint (-45)), (strLit "fs", .jarr [strLit "x.bin", []]),
        (strLit "z", .jarr [])] :=
  ⟨by decide, C8_roundtrip _ (by decide)⟩

/-- C5, claim as stated is FALSE: the specification says correct
credentials yield a framed `status=success` response AND entry into the
command loop.  With the credential entry `"":"p"` (an empty username, as
a line `:p` in `id_passwd.txt` produces) and a client presenting exactly
those credentials, `authenticate_client` matches and sends the framed
success response, but `handle_client`'s `if not username:` treats the
empty string as falsy and closes the connection without ever entering
the command loop. -/
theorem C5_counterexample :
    authUser [([], strLit "p")]
      [(strLit "username", .jstr []), (strLit "password", .jstr (strLit "p"))] = some [] ∧
    handle_client [([], strLit "p")] []
      [frameBytes [(strLit "username", .jstr []), (strLit "password", .jstr (strLit "p"))]] =
      ⟨[.frame authOkResp], false, false, false, [], true⟩ := by
  decide

/-- C5 amended: the server processes exactly one authentication message
per connection; incorrect credentials yield the framed `status=failed`
response and closure with no retry and no command served (the user
directory is untouched); correct credentials yield the framed
`status=success` response and, provided the username is nonempty, entry
into the command loop — an empty username receives the success response
but the connection is closed without serving any command. -/
theorem C5_auth_gate (creds : Creds) (fs : FS) (s : Wire) (m : JMessage) (s1 : Wire)
    (hrecv : receive_message s = (some m, s1)) (hm : m ≠ []) :
    (authUser creds m = none →
      handle_client creds fs s = ⟨[.frame authFailResp], false, false, false, fs, true⟩) ∧
    (∀ u, authUser creds m = some u → u ≠ [] →
      handle_client creds fs s =
        ⟨.frame authOkResp :: (commandLoop (totalLen s1 + 1) fs s1).1, true, true, true,
          (commandLoop (totalLen s1 + 1) fs s1).2, true⟩) ∧
    (authUser creds m = some [] →
      handle_client creds fs s = ⟨[.frame authOkResp], false, false, false, fs, true⟩) :=
  ⟨fun hfail => handle_client_auth_fail creds fs s m s1 hrecv hm hfail,
   fun u hok hu => handle_client_auth_ok creds fs s m s1 u hrecv hm hok hu,
   fun hempty => handle_client_auth_empty creds fs s m s1 hrecv hm hempty⟩

/-- C5 witness: the amended theorem applied to a session of `user1` with
the correct password followed by channel closure — the success response
is sent and the (empty) command loop runs. -/
theorem C5_witness :
    (receive_message
        [frameBytes [(strLit "username", .jstr (strLit "user1")),
          (strLit "password", .jstr (strLit "pass1"))]] =
      (some [(strLit "username", .jstr (strLit "user1")),
        (strLit "password", .jstr (strLit "pass1"))], []) ∧
      authUser [(strLit "user1", strLit "pass1")]
        [(strLit "username", .jstr (strLit "user1")),
          (strLit "password", .jstr (strLit "pass1"))] = some (strLit "user1")) ∧
    handle_client [(strLit "user1", strLit "pass1")] []
      [frameBytes [(strLit "username", .jstr (strLit "user1")),
        (strLit "password", .jstr (strLit "pass1"))]] =
      ⟨.frame authOkResp :: (commandLoop (totalLen ([] : Wire) + 1) [] []).1, true, true, true,
        (commandLoop (totalLen ([] : Wire) + 1) [] []).2, true⟩ :=
  ⟨⟨by decide, by decide⟩,
    (C5_auth_gate [(strLit "user1", strLit "pass1")] []
      [frameBytes [(strLit "username", .jstr (strLit "user1")),
        (strLit "password", .jstr (strLit "pass1"))]]
      [(strLit "username", .jstr (strLit "user1")),
        (strLit "password", .jstr (strLit "pass1"))] []
      (by decide) (by decide)).2.1 (strLit "user1") (by decide) (by decide)⟩

/-- C6, claim as stated is FALSE: the specification says every session's
channel handle is added to the registry immediately after accept, before
authentication completes.  `self.clients.add` sits AFTER the
authentication check: at the concrete session below, which completes
authentication with a failure response, the handle is never added to the
registry at all — so no handle is registered before authentication
completes. -/
theorem C6_counterexample :
    (handle_client [(strLit "user1", strLit "pass1")] []
      [frameBytes [(strLit "username", .jstr (strLit "user1")),
        (strLit "password", .jstr (strLit "nope"))]]).outs = [.frame authFailResp] ∧
    (handle_client [(strLit "user1", strLit "pass1")] []
      [frameBytes [(strLit "username", .jstr (strLit "user1")),
        (strLit "password", .jstr (strLit "nope"))]]).registered = false := by
  decide

/-- C6 amended: a session's channel handle is added to the registry
exactly when the session passes authentication (with a nonempty username)
and enters the command loop — sessions failing authentication are never
registered — and it is removed exactly once, when the handling routine
exits, which also always closes the socket. -/
theorem C6_registry (creds : Creds) (fs : FS) (s : Wire) :
    (handle_client creds fs s).registered = (handle_client creds fs s).enteredLoop ∧
    (handle_client creds fs s).deregistered = (handle_client creds fs s).registered ∧
    (handle_client creds fs s).closed = true := by
  rw [handle_client]
  rcases h : authenticate_client creds s with ⟨o, outs, s1⟩
  cases o with
  | none => simp
  | some u =>
    by_cases hu : u = []
    · simp [hu]
    · simp [hu]

/-- C9: for every view command naming an existing file, the server
responds with the framed success message whose preview is the first (at
most 1024) bytes of the file decoded with `errors='ignore'` — a total,
lossy decode that never raises — and the preview never exceeds 1024
characters. -/
theorem C9_view (fs : FS) (name : Str) (s : Wire) (content : List Nat)
    (hname : name ≠ []) (hc : fsLookup fs name = some content) :
    dispatch fs (mkView name) s =
      ⟨[.frame (viewOkResp (utf8DecodeIgnore (content.take 1024)))], fs, s⟩ ∧
    (content.take 1024).length ≤ 1024 ∧
    (utf8DecodeIgnore (content.take 1024)).length ≤ 1024 := by
  refine ⟨?_, ?_, ?_⟩
  · rw [dispatch_view fs name s hname, hc]
  · exact List.length_take_le 1024 content
  · exact le_trans (utf8DecodeIgnore_length_le (content.take 1024))
      (List.length_take_le 1024 content)

/-- C9 witness: the view theorem applied to a concrete file whose bytes
include the invalid UTF-8 byte 255, which the lossy decode drops. -/
theorem C9_witness :
    ((strLit "f" : Str) ≠ [] ∧
      fsLookup [(strLit "f", [104, 105, 255, 106])] (strLit "f") = some [104, 105, 255, 106]) ∧
    dispatch [(strLit "f", [104, 105, 255, 106])] (mkView (strLit "f")) [] =
      ⟨[.frame (viewOkResp (utf8DecodeIgnore (([104, 105, 255, 106] : List Nat).take 1024)))],
        [(strLit "f", [104, 105, 255, 106])], []⟩ ∧
    (([104, 105, 255, 106] : List Nat).take 1024).length ≤ 1024 ∧
    (utf8DecodeIgnore (([104, 105, 255, 106] : List Nat).take 1024)).length ≤ 1024 :=
  ⟨⟨by decide, by decide⟩,
    C9_view [(strLit "f", [104, 105, 255, 106])] (strLit "f") [] [104, 105, 255, 106]
      (by decide) (by decide)⟩

/-- C6 witness: the registry discipline evaluated on a concrete
authenticated session — registered, deregistered and closed all hold
together with loop entry. -/
theorem C6_witness :
    (handle_client [(strLit "user1", strLit "pass1")] []
      [frameBytes [(strLit "username", .jstr (strLit "user1")),
        (strLit "password", .jstr (strLit "pass1"))]]).registered =
      (handle_client [(strLit "user1", strLit "pass1")] []
        [frameBytes [(strLit "username", .jstr (strLit "user1")),
          (strLit "password", .jstr (strLit "pass1"))]]).enteredLoop ∧
    (handle_client [(strLit "user1", strLit "pass1")] []
      [frameBytes [(strLit "username", .jstr (strLit "user1")),
        (strLit "password", .jstr (strLit "pass1"))]]).deregistered =
      (handle_client [(strLit "user1", strLit "pass1")] []
        [frameBytes [(strLit "username", .jstr (strLit "user1")),
          (strLit "password", .jstr (strLit "pass1"))]]).registered ∧
    (handle_client [(strLit "user1", strLit "pass1")] []
      [frameBytes [(strLit "username", .jstr (strLit "user1")),
        (strLit "password", .jstr (strLit "pass1"))]]).closed = true :=
  C6_registry [(strLit "user1", strLit "pass1")] []
    [frameBytes [(strLit "username", .jstr (strLit "user1")),
      (strLit "password", .jstr (strLit "pass1"))]]
